import Mathlib

/-!
Shallow embedding of the organization engine of
`src/jellyfin_music_organizer/core/organize_thread.py` (class `OrganizeThread`),
together with proofs about the properties of its run loop, identity resolver
and filename sanitizer.

Machine-level conventions of the embedding:
* A mutagen tag value is a sequence; its elements are either plain text or an
  `ASFUnicodeAttribute` wrapper (`MVal`).
* The Python locals `artist_data` / `album_data` start as the empty string `""`
  and are replaced by a raw tag value on an alias match; `TagData.unset` models
  the initial `""`, `TagData.found v` models a raw matched value `v`.
* The destination file tree is a finite map from path to file content,
  represented as an association list `FS`; `shutil.copy2` adds an entry.
* Exceptions raised by the third-party tag reader (`mutagen.File` /
  `metadata.items()`) are modelled by `TagSource.unreadable msg` carrying the
  exception text; I/O failures inside `_copy_file` are modelled by the
  `copyFails` field of a file, carrying the text of the underlying exception.
* The Qt signals emitted by `run` are modelled as an ordered `List Event`.
-/

namespace JMO

/-- One element of a mutagen tag value: either plain text or an
`mutagen.asf.ASFUnicodeAttribute` wrapper carrying a text payload. -/
inductive MVal where
  | plain (s : String)
  | asf (s : String)
deriving DecidableEq, Repr

/-- Models `str(x) if isinstance(x, ASFUnicodeAttribute) else x` applied to the
first element of a matched tag value (organize_thread.py lines 179-188). -/
def MVal.toStr : MVal → String
  | MVal.plain s => s
  | MVal.asf s => s

/-- Running value of the Python locals `artist_data` / `album_data` in
`OrganizeThread.run`: `unset` models the initial `""`, `found v` models the raw
tag value assigned on a key match (lines 152-172). -/
inductive TagData where
  | unset
  | found (v : List MVal)
deriving DecidableEq, Repr

/-- Python `key.lower()` (organize_thread.py line 168): lower-case every
character. This is the same function as Lean's `String.toLower` (which maps
`Char.toLower` over the characters), written on the character list so that it
evaluates by kernel reduction. -/
def strToLower (s : String) : String := (s.toList.map Char.toLower).asString

/-- `artist_values` from organize_thread.py line 131. -/
def artist_values : List String := ["©art", "artist", "author", "tpe1"]

/-- `album_values` from organize_thread.py line 132. -/
def album_values : List String := ["©alb", "album", "talb"]

/-- One iteration of the metadata scan at organize_thread.py lines 167-172:
lower-case the key; on an artist alias assign `artist_data = value`, else on an
album alias assign `album_data = value`. -/
def resolveStep (acc : TagData × TagData) (kv : String × List MVal) : TagData × TagData :=
  if strToLower kv.1 ∈ artist_values then (TagData.found kv.2, acc.2)
  else if strToLower kv.1 ∈ album_values then (acc.1, TagData.found kv.2)
  else acc

/-- The whole metadata scan of organize_thread.py lines 167-172: fold
`resolveStep` over the tag items starting from `("", "")`. -/
def resolveIdentity (tags : List (String × List MVal)) : TagData × TagData :=
  tags.foldl resolveStep (TagData.unset, TagData.unset)

/-- The apostrophe character, one of the characters removed by
`clean_filename`. -/
def apos : Char := Char.ofNat 39

/-- The characters removed by `clean_filename` (organize_thread.py lines 80-87):
the translate table `":*?<>|"` plus the replaced characters. -/
def illegalChars : List Char := [':', '*', '?', '<', '>', '|', '/', '\\', '\"', apos]

/-- Removal of all illegal characters: the `translate` call composed with the
four single-character `replace` calls of `clean_filename`. -/
def filterIllegal (l : List Char) : List Char :=
  l.filter fun c => !(illegalChars.contains c)

/-- Models `.replace("...", "")` (organize_thread.py line 86): scan left to
right, dropping each non-overlapping occurrence of three consecutive dots. -/
def rmEll : List Char → List Char
  | [] => []
  | [c] => [c]
  | [c, d] => [c, d]
  | c :: d :: e :: rest =>
    if c = '.' ∧ d = '.' ∧ e = '.' then rmEll rest
    else c :: rmEll (d :: e :: rest)

/-- Whitespace test used by the model of Python `str.strip()`. -/
def isWS (c : Char) : Bool := c.isWhitespace

/-- Models Python `str.strip()` on a character list: drop leading and trailing
whitespace (organize_thread.py line 88). -/
def stripChars (l : List Char) : List Char :=
  ((l.dropWhile isWS).reverse.dropWhile isWS).reverse

/-- `OrganizeThread.clean_filename` (organize_thread.py lines 68-88): when
`remove_illegal_chars` holds, remove the illegal characters, then remove
`...` occurrences, then strip; otherwise only strip. -/
def cleanFilename (removeIllegalChars : Bool) (text : String) : String :=
  if removeIllegalChars then
    (stripChars (rmEll (filterIllegal text.toList))).asString
  else
    (stripChars text.toList).asString

/-- The error text stored by `_handle_existing_file`
(organize_thread.py line 250). -/
def skipMsg : String := "File already exists in the destination folder"

/-- The message of the exception raised at organize_thread.py line 176. -/
def dataNotFoundMsg : String := "Artist or album data not found"

/-- The text of the Python `IndexError` raised by indexing an empty sequence at
organize_thread.py lines 180 and 185. -/
def indexErrMsg : String := "list index out of range"

/-- Engine configuration: the destination root
(`info["selected_destination_folder_path"]`) and the persisted
`remove_illegal_chars` flag. -/
structure Config where
  destRoot : String
  removeIllegalChars : Bool
deriving DecidableEq, Repr

/-- Result of `mutagen.File(path)` followed by `metadata.items()`: either the
flat key/value item list, or an exception from the third-party reader carrying
its message. -/
inductive TagSource where
  | unreadable (msg : String)
  | readable (tags : List (String × List MVal))
deriving DecidableEq, Repr

/-- One discovered source file: its name (`file_name`), its full source path
(`path_in_str`), its byte content, its tag items, and an optional I/O failure
of the copy step (the text of the exception wrapped by `_copy_file`). -/
structure MusicFile where
  file_name : String
  source_path : String
  content : String
  tags : TagSource
  copyFails : Option String
deriving DecidableEq, Repr

/-- The destination file tree: an association list from path to content. -/
abbrev FS := List (String × String)

/-- The dictionary built by `_handle_existing_file`
(organize_thread.py lines 246-251). -/
structure SkipRec where
  file_name : String
  new_location : String
  path_in_str : String
  error : String
deriving DecidableEq, Repr

/-- The dictionary built by `_create_error_info`
(organize_thread.py lines 327-333). -/
structure ErrRec where
  file_name : String
  artist_found : TagData
  album_found : TagData
  metadata_dict : List (String × List MVal)
  error : String
deriving DecidableEq, Repr

/-- Per-file outcome of one loop iteration of `OrganizeThread.run`. -/
inductive StepResult where
  | moved
  | skipped (r : SkipRec)
  | errored (r : ErrRec)
deriving DecidableEq, Repr

/-- `OrganizeThread._copy_file` (organize_thread.py lines 253-289): an
environmental failure (`copyFails`) or a defensive destination re-check raises,
wrapped as `OSError("Copy failed: " + str(e))`; otherwise `shutil.copy2` adds
the destination entry. -/
def copyFile (fs : FS) (target content : String) (copyFails : Option String) :
    Except String FS :=
  match copyFails with
  | some m => Except.error ("Copy failed: " ++ m)
  | none =>
    if target ∈ fs.map Prod.fst then
      Except.error ("Copy failed: Destination file already exists: " ++ target)
    else
      Except.ok ((target, content) :: fs)

/-- `new_location` computed at organize_thread.py lines 195-197 from the first
elements of the matched artist and album values. -/
def plannedLocation (cfg : Config) (a0 b0 : MVal) : String :=
  cfg.destRoot ++ "/" ++ cleanFilename cfg.removeIllegalChars a0.toStr ++ "/" ++
    cleanFilename cfg.removeIllegalChars b0.toStr

/-- The destination path `f"{new_location}/{file_name}"` checked at
organize_thread.py line 200. -/
def plannedTarget (cfg : Config) (a0 b0 : MVal) (fname : String) : String :=
  plannedLocation cfg a0 b0 ++ "/" ++ fname

/-- The body of the per-file `try` block of `OrganizeThread.run` (lines
158-213) after a successful tag read: the identity check at line 175, the
indexing at lines 179-188, the collision check at line 200, and the copy at
line 206, each failure converted to the error dictionary of
`_create_error_info` with the raw partial values. -/
def processReadable (cfg : Config) (fs : FS) (f : MusicFile)
    (tags : List (String × List MVal)) : StepResult × FS :=
  match resolveIdentity tags with
  | (TagData.unset, bd) =>
      (StepResult.errored ⟨f.file_name, TagData.unset, bd, tags, dataNotFoundMsg⟩, fs)
  | (TagData.found va, TagData.unset) =>
      (StepResult.errored
        ⟨f.file_name, TagData.found va, TagData.unset, tags, dataNotFoundMsg⟩, fs)
  | (TagData.found [], TagData.found vb) =>
      (StepResult.errored
        ⟨f.file_name, TagData.found [], TagData.found vb, tags, indexErrMsg⟩, fs)
  | (TagData.found (a0 :: arest), TagData.found []) =>
      (StepResult.errored
        ⟨f.file_name, TagData.found (a0 :: arest), TagData.found [], tags, indexErrMsg⟩, fs)
  | (TagData.found (a0 :: arest), TagData.found (b0 :: brest)) =>
      if plannedTarget cfg a0 b0 f.file_name ∈ fs.map Prod.fst then
        (StepResult.skipped ⟨f.file_name, plannedLocation cfg a0 b0, f.source_path, skipMsg⟩, fs)
      else
        match copyFile fs (plannedTarget cfg a0 b0 f.file_name) f.content f.copyFails with
        | Except.ok fs2 => (StepResult.moved, fs2)
        | Except.error m =>
            (StepResult.errored
              ⟨f.file_name, TagData.found (a0 :: arest), TagData.found (b0 :: brest),
                tags, m⟩, fs)

/-- One whole iteration of the `for path in pathlist` loop body (organize
thread.py lines 146-213): a failing tag read yields the error dictionary with
the reset values (`""`, `""`, `{}`), otherwise process the readable file. -/
def processFile (cfg : Config) (fs : FS) (f : MusicFile) : StepResult × FS :=
  match f.tags with
  | TagSource.unreadable msg =>
      (StepResult.errored ⟨f.file_name, TagData.unset, TagData.unset, [], msg⟩, fs)
  | TagSource.readable tags => processReadable cfg fs f tags

/-- State carried across loop iterations: the destination tree, the two
accumulating record lists of `recall_files`, the counter `i`, and the emitted
progress percentages. -/
structure RunState where
  fs : FS
  errorFiles : List ErrRec
  skipFiles : List SkipRec
  counted : Nat
  progress : List Nat
deriving DecidableEq, Repr

/-- Python truthiness of `file_info.get("error")`: `None` and `""` are falsy. -/
def pyTruthy : Option String → Bool
  | none => false
  | some s => if s = "" then false else true

/-- Python `file_info.get("error") != t` where a missing key gives `None`. -/
def pyGetNe (e : Option String) (t : String) : Bool :=
  match e with
  | none => true
  | some s => if s = t then false else true

/-- The guard of the `finally` block at organize_thread.py lines 217-220:
`not file_info.get("error") or file_info.get("error") != skipMsg`. -/
def countedCond (e : Option String) : Bool :=
  !pyTruthy e || pyGetNe e skipMsg

/-- The value of `file_info.get("error")` at the start of the `finally` block:
`file_info` is `{}` for a moved file, and otherwise carries the record's
`error` entry. -/
def stepErrField : StepResult → Option String
  | StepResult.moved => none
  | StepResult.skipped r => some r.error
  | StepResult.errored r => some r.error

/-- Appending the per-file record to `recall_files` (organize_thread.py lines
203 and 213) and the destination-tree effect of the step. -/
def bucketState (st : RunState) (pr : StepResult × FS) : RunState :=
  match pr.1 with
  | StepResult.moved => { st with fs := pr.2 }
  | StepResult.skipped r => { st with fs := pr.2, skipFiles := st.skipFiles ++ [r] }
  | StepResult.errored r => { st with fs := pr.2, errorFiles := st.errorFiles ++ [r] }

/-! ### Binary64 model of the progress arithmetic

Line 222 computes `int(i / len(pathlist) * 100)` with CPython floats:
`i / len(pathlist)` is the correctly rounded IEEE-754 binary64 quotient
(round to nearest, ties to even), the multiplication by 100 is again
correctly rounded on the binary64 grid (subnormal results are rounded on
the fixed grid of multiples of 2^-1074), and `int` truncates. `pyPct` is
an executable natural-number transcription of that pipeline; `fpRound`
is the rational-valued rounding map it mirrors, and the two are tied
together by the bridge theorem `pyPct_eq` below. -/

/-- Fuel-based floor base-2 logarithm. -/
def nlog2Aux : Nat → Nat → Nat
  | 0, _ => 0
  | fuel + 1, n => if 2 ≤ n then nlog2Aux fuel (n / 2) + 1 else 0

def nlog2 (n : Nat) : Nat := nlog2Aux n n

/-- Round num/den to the nearest natural, ties to even. -/
def rne (num den : Nat) : Nat :=
  if 2 * (num % den) < den then num / den
  else if den < 2 * (num % den) then num / den + 1
  else if num / den % 2 = 0 then num / den else num / den + 1

/-- Least t with n ≤ i * 2^t, by fuel. -/
def divExpAux : Nat → Nat → Nat → Nat
  | 0, _, _ => 0
  | fuel + 1, i, n => if n ≤ i then 0 else divExpAux fuel (2 * i) n + 1

def fdivExp (i n : Nat) : Nat := divExpAux n i n

def fpDivSig (i n : Nat) : Nat × Nat :=
  if fdivExp i n ≤ 1022 then (rne (i * 2 ^ (52 + fdivExp i n)) n, 52 + fdivExp i n)
  else (rne (i * 2 ^ 1074) n, 1074)

def pctShift (i n : Nat) : Nat :=
  min ((fpDivSig i n).2 + 52 - nlog2 (100 * (fpDivSig i n).1)) 1074

def pyPct (i n : Nat) : Nat :=
  rne (100 * (fpDivSig i n).1 * 2 ^ pctShift i n) (2 ^ (fpDivSig i n).2) / 2 ^ pctShift i n

/-- Round a rational to the nearest integer, ties to even. -/
def rneInt (q : ℚ) : ℤ :=
  if q - ⌊q⌋ < 1 / 2 then ⌊q⌋
  else if 1 / 2 < q - ⌊q⌋ then ⌊q⌋ + 1
  else if ⌊q⌋ % 2 = 0 then ⌊q⌋ else ⌊q⌋ + 1

/-- Round to the grid of integer multiples of 2^g, nearest, ties to even. -/
def rndGrid (g : ℤ) (q : ℚ) : ℚ := (rneInt (q * 2 ^ (-g)) : ℚ) * 2 ^ g

/-- The binade of a positive rational: the exponent e with 2^e ≤ q < 2^(e+1). -/
def qexp (q : ℚ) : ℤ :=
  if (2 : ℚ) ^ ((nlog2 q.num.toNat : ℤ) - nlog2 q.den) ≤ q
  then (nlog2 q.num.toNat : ℤ) - nlog2 q.den
  else (nlog2 q.num.toNat : ℤ) - nlog2 q.den - 1

/-- IEEE-754 binary64 round-to-nearest-even of a nonnegative rational. -/
def fpRound (q : ℚ) : ℚ :=
  if 0 < q then rndGrid (max (qexp q - 52) (-1074)) q else 0

/-- The `finally` block at organize_thread.py lines 215-222: when the guard
holds, increment `i` and emit `int(i / len(pathlist) * 100)` — evaluated in
binary64 arithmetic, `pyPct` of the new count and the total. -/
def finallyCount (total : Nat) (st : RunState) (res : StepResult) : RunState :=
  if countedCond (stepErrField res) then
    { st with
        counted := st.counted + 1,
        progress := st.progress ++ [pyPct (st.counted + 1) total] }
  else st

/-- One full iteration of the run loop on one file. -/
def runStep (cfg : Config) (total : Nat) (st : RunState) (f : MusicFile) : RunState :=
  finallyCount total (bucketState st (processFile cfg st.fs f)) (processFile cfg st.fs f).1

/-- The `for path in pathlist` loop of `OrganizeThread.run`. -/
def runLoop (cfg : Config) (total : Nat) (st : RunState) (files : List MusicFile) : RunState :=
  files.foldl (runStep cfg total) st

/-- The Qt signals emitted by `OrganizeThread.run`, in emission order. -/
inductive Event where
  | numberSongs (n : Nat)
  | progress (p : Nat)
  | customDialog (msg : String)
  | killThread (name : String)
  | organizeFinish (errorFiles : List ErrRec) (skipFiles : List SkipRec)
deriving DecidableEq, Repr

/-- The state at the top of the loop: `recall_files` empty, `i = 0`. -/
def initState (fs0 : FS) : RunState := ⟨fs0, [], [], 0, []⟩

/-- The dialog text emitted at organize_thread.py line 229. -/
def noSongsMsg : String := "No songs were found in the selected folder."

/-- `OrganizeThread.run` (organize_thread.py lines 90-231) on an already
discovered file list: emit the total count; when non-zero, run the loop and
emit the accumulated `recall_files`, otherwise emit the dialog and the kill
signal. Returns the emitted events in order and the final destination tree. -/
def organizeRun (cfg : Config) (files : List MusicFile) (fs0 : FS) : List Event × FS :=
  if files.length ≠ 0 then
    let st := runLoop cfg files.length (initState fs0) files
    ([Event.numberSongs files.length] ++ st.progress.map Event.progress ++
      [Event.organizeFinish st.errorFiles st.skipFiles], st.fs)
  else
    ([Event.numberSongs 0, Event.customDialog noSongsMsg, Event.killThread "organize"], fs0)

/-- The subsequence of progress percentages among the emitted events. -/
def progressValues (events : List Event) : List Nat :=
  events.filterMap fun e =>
    match e with
    | Event.progress p => some p
    | _ => none

/-- Modelled from the spec: Python `round` applied to the exact rational value
`num / den` (round half to even), the rounding named by the specification
sentence `round(processed / total * 100)`. -/
def specRound (num den : Nat) : Nat :=
  let q := num / den
  let r := num % den
  if 2 * r < den then q
  else if den < 2 * r then q + 1
  else if q % 2 = 0 then q else q + 1

/-- Whether a character list contains three consecutive dots. -/
def hasTriple : List Char → Bool
  | [] => false
  | [_] => false
  | [_, _] => false
  | c :: d :: e :: rest =>
    if c = '.' ∧ d = '.' ∧ e = '.' then true
    else hasTriple (d :: e :: rest)

/-- Whether a character list starts with a dot. -/
def dot1 : List Char → Bool
  | [] => false
  | c :: _ => decide (c = '.')

/-- Whether a character list starts with two dots. -/
def dot2 : List Char → Bool
  | c :: d :: _ => decide (c = '.' ∧ d = '.')
  | _ => false

/-- Number of per-file records whose `error` entry equals the collision
message: exactly the files the `finally` guard does not count. -/
def badRec (st : RunState) : Nat :=
  st.skipFiles.length + (st.errorFiles.filter fun r => decide (r.error = skipMsg)).length

/-- Sample configuration used by the concrete witnesses. -/
def sampleCfg : Config := ⟨"dest", true⟩

/-- Sample complete tag items used by the concrete witnesses. -/
def sampleTags : List (String × List MVal) :=
  [("artist", [MVal.plain "A"]), ("album", [MVal.plain "B"])]

/-- A readable sample file with complete tags, used by the concrete
witnesses. -/
def sampleFile (n : String) : MusicFile :=
  ⟨n, "src/" ++ n, "bytes", TagSource.readable sampleTags, none⟩

/-! ## Lemmas about the identity resolver -/

theorem foldl_fst_of_no_artist (post : List (String × List MVal))
    (h : ∀ kv ∈ post, strToLower kv.1 ∉ artist_values) (acc : TagData × TagData) :
    (post.foldl resolveStep acc).1 = acc.1 := by
  induction post generalizing acc with
  | nil => rfl
  | cons kv rest ih =>
    have hk := h kv (List.mem_cons_self _ _)
    have hrest : ∀ x ∈ rest, strToLower x.1 ∉ artist_values := fun x hx =>
      h x (List.mem_cons_of_mem _ hx)
    rw [List.foldl_cons, ih hrest]
    unfold resolveStep
    rw [if_neg hk]
    split <;> rfl

theorem foldl_snd_of_no_album (post : List (String × List MVal))
    (h : ∀ kv ∈ post, strToLower kv.1 ∉ album_values) (acc : TagData × TagData) :
    (post.foldl resolveStep acc).2 = acc.2 := by
  induction post generalizing acc with
  | nil => rfl
  | cons kv rest ih =>
    have hk := h kv (List.mem_cons_self _ _)
    have hrest : ∀ x ∈ rest, strToLower x.1 ∉ album_values := fun x hx =>
      h x (List.mem_cons_of_mem _ hx)
    rw [List.foldl_cons, ih hrest]
    unfold resolveStep
    by_cases ha : strToLower kv.1 ∈ artist_values
    · rw [if_pos ha]
    · rw [if_neg ha, if_neg hk]

theorem album_not_artist {s : String} (h : s ∈ album_values) : s ∉ artist_values := by
  simp only [album_values, List.mem_cons, List.not_mem_nil, or_false] at h
  rcases h with h | h | h <;> subst h <;> decide

/-- C1, counterexample: on a tag map carrying the artist aliases `artist` and
then `tpe1`, the resolver returns the value of the second (later) matching key,
not the value of the first one. -/
theorem c1_counterexample :
    (resolveIdentity [("artist", [MVal.plain "A"]), ("tpe1", [MVal.plain "B"])]).1
        = TagData.found [MVal.plain "B"] ∧
      TagData.found [MVal.plain "B"] ≠ TagData.found [MVal.plain "A"] := by
  refine ⟨rfl, ?_⟩
  decide

/-- C1, amended: for every tag map containing two or more keys of the same
alias class, the identity resolver keeps the value of the LAST matching key in
iteration order — a later matching key of the same class overwrites an
already-found value, for the artist class and for the album class alike. -/
theorem c1_last_match_wins :
    (∀ (pre post : List (String × List MVal)) (k : String) (v : List MVal),
        strToLower k ∈ artist_values →
        (∀ kv ∈ post, strToLower kv.1 ∉ artist_values) →
        (resolveIdentity (pre ++ (k, v) :: post)).1 = TagData.found v) ∧
    (∀ (pre post : List (String × List MVal)) (k : String) (v : List MVal),
        strToLower k ∈ album_values →
        (∀ kv ∈ post, strToLower kv.1 ∉ album_values) →
        (resolveIdentity (pre ++ (k, v) :: post)).2 = TagData.found v) := by
  constructor
  · intro pre post k v hk hpost
    unfold resolveIdentity
    rw [List.foldl_append, List.foldl_cons, foldl_fst_of_no_artist post hpost]
    unfold resolveStep
    rw [if_pos hk]
  · intro pre post k v hk hpost
    unfold resolveIdentity
    rw [List.foldl_append, List.foldl_cons, foldl_snd_of_no_album post hpost]
    unfold resolveStep
    rw [if_neg (album_not_artist hk), if_pos hk]

/-- Witness for the amended C1: a second artist alias key `ARTIST` placed after
`tpe1` overwrites the earlier value. -/
theorem c1_last_match_wins_witness :
    (resolveIdentity [("tpe1", [MVal.plain "A"]), ("ARTIST", [MVal.plain "B"])]).1
      = TagData.found [MVal.plain "B"] :=
  c1_last_match_wins.1 [("tpe1", [MVal.plain "A"])] [] "ARTIST" [MVal.plain "B"]
    (by decide) (by intro kv hkv; cases hkv)

/-! ## The sanitizer on the spec example -/

/-- C2, counterexample: the sanitizer does not map the spec example to
`My Band Best` — removing `/` joins the surrounding words instead of
separating them. -/
theorem c2_counterexample :
    cleanFilename true "My/Band: \"Best\"" ≠ "My Band Best" := by decide

/-- C2, amended: with sanitization enabled, the sanitizer applied to
`My/Band: "Best"` returns exactly `MyBand Best`. -/
theorem c2_sanitized_example :
    cleanFilename true "My/Band: \"Best\"" = "MyBand Best" := by decide

/-! ## Lemmas about the sanitizer -/

theorem rmEll_cons3 (c d e : Char) (rest : List Char) :
    rmEll (c :: d :: e :: rest) =
      if c = '.' ∧ d = '.' ∧ e = '.' then rmEll rest else c :: rmEll (d :: e :: rest) := rfl

theorem hasTriple_cons3 (c d e : Char) (rest : List Char) :
    hasTriple (c :: d :: e :: rest) =
      if c = '.' ∧ d = '.' ∧ e = '.' then true else hasTriple (d :: e :: rest) := rfl

theorem mem_rmEll {a : Char} : ∀ l : List Char, a ∈ rmEll l → a ∈ l
  | [], h => h
  | [_], h => h
  | [_, _], h => h
  | c :: d :: e :: rest, h => by
    rw [rmEll_cons3] at h
    by_cases h3 : c = '.' ∧ d = '.' ∧ e = '.'
    · rw [if_pos h3] at h
      exact List.mem_cons_of_mem _ (List.mem_cons_of_mem _
        (List.mem_cons_of_mem _ (mem_rmEll rest h)))
    · rw [if_neg h3] at h
      rcases List.mem_cons.mp h with h | h
      · subst h; exact List.mem_cons_self _ _
      · exact List.mem_cons_of_mem _ (mem_rmEll (d :: e :: rest) h)

theorem rmEll_spec : ∀ l : List Char,
    hasTriple (rmEll l) = false ∧
      (dot1 (rmEll l) = true → dot1 l = true) ∧
      (dot2 (rmEll l) = true → dot2 l = true)
  | [] => ⟨rfl, fun h => h, fun h => h⟩
  | [_] => ⟨rfl, fun h => h, fun h => h⟩
  | [_, _] => ⟨rfl, fun h => h, fun h => h⟩
  | c :: d :: e :: rest => by
    by_cases h3 : c = '.' ∧ d = '.' ∧ e = '.'
    · have ih := rmEll_spec rest
      have hr : rmEll (c :: d :: e :: rest) = rmEll rest := by
        rw [rmEll_cons3, if_pos h3]
      rw [hr]
      obtain ⟨rfl, rfl, rfl⟩ := h3
      exact ⟨ih.1, fun _ => by simp [dot1], fun _ => by simp [dot2]⟩
    · have ih := rmEll_spec (d :: e :: rest)
      have hr : rmEll (c :: d :: e :: rest) = c :: rmEll (d :: e :: rest) := by
        rw [rmEll_cons3, if_neg h3]
      rw [hr]
      refine ⟨?_, ?_, ?_⟩
      · rcases hX : rmEll (d :: e :: rest) with _ | ⟨x1, X1⟩
        · rfl
        · rcases X1 with _ | ⟨x2, X2⟩
          · rfl
          · rw [hasTriple_cons3]
            rw [if_neg, ← hX]
            · exact ih.1
            · rintro ⟨rfl, rfl, rfl⟩
              have hd2 : dot2 (rmEll (d :: e :: rest)) = true := by
                rw [hX]; simp [dot2]
              have hde : d = '.' ∧ e = '.' := by simpa [dot2] using ih.2.2 hd2
              exact h3 ⟨rfl, hde.1, hde.2⟩
      · intro h1
        rcases hX : rmEll (d :: e :: rest) with _ | ⟨x1, X1⟩ <;> rw [hX] at h1 <;>
          simpa [dot1] using h1
      · intro h2
        rcases hX : rmEll (d :: e :: rest) with _ | ⟨x1, X1⟩
        · rw [hX] at h2
          exact absurd h2 (by simp [dot2])
        · rw [hX] at h2
          have hc : c = '.' ∧ x1 = '.' := by simpa [dot2] using h2
          have h1' : dot1 (rmEll (d :: e :: rest)) = true := by
            rw [hX]; simp [dot1, hc.2]
          have hd : d = '.' := by simpa [dot1] using ih.2.1 h1'
          simp [dot2, hc.1, hd]

theorem rmEll_of_not_triple : ∀ l : List Char, hasTriple l = false → rmEll l = l
  | [], _ => rfl
  | [_], _ => rfl
  | [_, _], _ => rfl
  | c :: d :: e :: rest, h => by
    rw [hasTriple_cons3] at h
    by_cases h3 : c = '.' ∧ d = '.' ∧ e = '.'
    · rw [if_pos h3] at h
      exact absurd h (by simp)
    · rw [if_neg h3] at h
      rw [rmEll_cons3, if_neg h3, rmEll_of_not_triple (d :: e :: rest) h]

theorem hasTriple_core (l2 : List Char) : hasTriple ('.' :: '.' :: '.' :: l2) = true := by
  rw [hasTriple_cons3, if_pos ⟨rfl, rfl, rfl⟩]

theorem hasTriple_cons (a : Char) (l : List Char) (h : hasTriple l = true) :
    hasTriple (a :: l) = true := by
  match l with
  | [] => exact absurd h (by simp [hasTriple])
  | [x] => exact absurd h (by simp [hasTriple])
  | [x, y] => exact absurd h (by simp [hasTriple])
  | x :: y :: z :: rest =>
    rw [hasTriple_cons3]
    split
    · rfl
    · exact h

theorem hasTriple_of_sub (l : List Char) (h : ['.', '.', '.'] <:+: l) :
    hasTriple l = true := by
  obtain ⟨s, t, hst⟩ := h
  subst hst
  induction s with
  | nil => simpa using hasTriple_core t
  | cons a s ih =>
    simp only [List.cons_append]
    exact hasTriple_cons a _ ih

theorem sub_of_hasTriple : ∀ l : List Char, hasTriple l = true → ['.', '.', '.'] <:+: l
  | [], h => absurd h (by simp [hasTriple])
  | [c], h => absurd h (by simp [hasTriple])
  | [c, d], h => absurd h (by simp [hasTriple])
  | c :: d :: e :: rest, h => by
    rw [hasTriple_cons3] at h
    by_cases h3 : c = '.' ∧ d = '.' ∧ e = '.'
    · obtain ⟨rfl, rfl, rfl⟩ := h3
      exact ⟨[], rest, rfl⟩
    · rw [if_neg h3] at h
      exact List.infix_cons (sub_of_hasTriple (d :: e :: rest) h)

theorem stripChars_sub (l : List Char) : stripChars l <:+: l := by
  obtain ⟨w, hw⟩ : List.dropWhile isWS l <:+ l := List.dropWhile_suffix _
  obtain ⟨u, hu⟩ : List.dropWhile isWS (List.dropWhile isWS l).reverse <:+
      (List.dropWhile isWS l).reverse := List.dropWhile_suffix _
  refine ⟨w, u.reverse, ?_⟩
  have hrev := congrArg List.reverse hu
  rw [List.reverse_append, List.reverse_reverse] at hrev
  rw [List.append_assoc]
  rw [show stripChars l = (List.dropWhile isWS (List.dropWhile isWS l).reverse).reverse from rfl]
  rw [hrev]
  exact hw

theorem mem_stripChars {a : Char} (l : List Char) (h : a ∈ stripChars l) : a ∈ l := by
  obtain ⟨s, t, hst⟩ := stripChars_sub l
  rw [← hst]
  exact List.mem_append_left t (List.mem_append_right s h)

theorem hasTriple_stripChars (l : List Char) (h : hasTriple l = false) :
    hasTriple (stripChars l) = false := by
  cases hb : hasTriple (stripChars l) with
  | false => rfl
  | true =>
    exfalso
    obtain ⟨s2, t2, hst2⟩ := sub_of_hasTriple _ hb
    obtain ⟨s, t, hst⟩ := stripChars_sub l
    have hsub : ['.', '.', '.'] <:+: l := by
      refine ⟨s ++ s2, t2 ++ t, ?_⟩
      rw [← hst, ← hst2]
      simp [List.append_assoc]
    have := hasTriple_of_sub l hsub
    rw [h] at this
    exact Bool.noConfusion this

theorem dropWhile_of_head {α : Type} (p : α → Bool) (l : List α)
    (h : ∀ x, l.head? = some x → p x = false) : List.dropWhile p l = l := by
  cases l with
  | nil => rfl
  | cons a t => simp [List.dropWhile_cons, h a rfl]

theorem dropWhile_idem {α : Type} (p : α → Bool) (l : List α) :
    List.dropWhile p (List.dropWhile p l) = List.dropWhile p l := by
  apply dropWhile_of_head
  intro x hx
  have hh := List.head?_dropWhile_not p l
  rw [hx] at hh
  exact hh

theorem stripChars_idem (l : List Char) : stripChars (stripChars l) = stripChars l := by
  have key : ∀ m : List Char, List.dropWhile isWS (stripChars m) = stripChars m := by
    intro m
    apply dropWhile_of_head
    intro x hx
    obtain ⟨u, hu⟩ : List.dropWhile isWS (List.dropWhile isWS m).reverse <:+
        (List.dropWhile isWS m).reverse := List.dropWhile_suffix _
    have hrev := congrArg List.reverse hu
    rw [List.reverse_append, List.reverse_reverse] at hrev
    have hmh : (List.dropWhile isWS m).head? = some x := by
      rw [← hrev, List.head?_append]
      rw [show stripChars m =
        (List.dropWhile isWS (List.dropWhile isWS m).reverse).reverse from rfl] at hx
      rw [hx]
      rfl
    have hh := List.head?_dropWhile_not isWS m
    rw [hmh] at hh
    exact hh
  show (((stripChars l).dropWhile isWS).reverse.dropWhile isWS).reverse = stripChars l
  rw [key l]
  rw [show (stripChars l).reverse = List.dropWhile isWS (List.dropWhile isWS l).reverse from by
    rw [show stripChars l =
      (List.dropWhile isWS (List.dropWhile isWS l).reverse).reverse from rfl,
      List.reverse_reverse]]
  rw [dropWhile_idem]
  rfl

/-- C6: the sanitizer with the flag enabled is idempotent — sanitizing an
already sanitized string changes nothing, for every string. -/
theorem c6_sanitize_idempotent (s : String) :
    cleanFilename true (cleanFilename true s) = cleanFilename true s := by
  show (stripChars (rmEll (filterIllegal
      (stripChars (rmEll (filterIllegal s.toList)))))).asString
    = (stripChars (rmEll (filterIllegal s.toList))).asString
  apply congrArg
  have hF : filterIllegal (stripChars (rmEll (filterIllegal s.toList)))
      = stripChars (rmEll (filterIllegal s.toList)) := by
    apply List.filter_eq_self.mpr
    intro a ha
    exact (List.mem_filter.mp (mem_rmEll _ (mem_stripChars _ ha))).2
  rw [hF]
  have hR : rmEll (stripChars (rmEll (filterIllegal s.toList)))
      = stripChars (rmEll (filterIllegal s.toList)) := by
    apply rmEll_of_not_triple
    exact hasTriple_stripChars _ (rmEll_spec (filterIllegal s.toList)).1
  rw [hR]
  exact stripChars_idem _

/-! ## The empty-source branch -/

/-- C9: on a run discovering zero files, the engine emits the total count, one
empty-source dialog and the kill signal, in that order and nothing else: no
progress event, no terminal result event, and the destination tree is
untouched. -/
theorem c9_empty_source (cfg : Config) (fs0 : FS) :
    organizeRun cfg [] fs0 =
      ([Event.numberSongs 0, Event.customDialog noSongsMsg, Event.killThread "organize"], fs0) ∧
    progressValues (organizeRun cfg [] fs0).1 = [] ∧
    ∀ errs skips, Event.organizeFinish errs skips ∉ (organizeRun cfg [] fs0).1 := by
  refine ⟨rfl, rfl, ?_⟩
  intro errs skips h
  simp only [organizeRun, List.length_nil, ne_eq, not_true_eq_false, if_false,
    List.mem_cons, List.not_mem_nil, or_false] at h
  rcases h with h | h | h <;> exact Event.noConfusion h

/-! ## Evaluation lemmas for one file -/

theorem processReadable_unset_artist (cfg : Config) (fs : FS) (f : MusicFile)
    (tags : List (String × List MVal)) (bd : TagData)
    (h : resolveIdentity tags = (TagData.unset, bd)) :
    processReadable cfg fs f tags =
      (StepResult.errored ⟨f.file_name, TagData.unset, bd, tags, dataNotFoundMsg⟩, fs) := by
  unfold processReadable
  split <;> simp_all

theorem processReadable_unset_album (cfg : Config) (fs : FS) (f : MusicFile)
    (tags : List (String × List MVal)) (va : List MVal)
    (h : resolveIdentity tags = (TagData.found va, TagData.unset)) :
    processReadable cfg fs f tags =
      (StepResult.errored ⟨f.file_name, TagData.found va, TagData.unset, tags, dataNotFoundMsg⟩,
        fs) := by
  unfold processReadable
  split <;> simp_all

theorem processReadable_empty_artist (cfg : Config) (fs : FS) (f : MusicFile)
    (tags : List (String × List MVal)) (vb : List MVal)
    (h : resolveIdentity tags = (TagData.found [], TagData.found vb)) :
    processReadable cfg fs f tags =
      (StepResult.errored ⟨f.file_name, TagData.found [], TagData.found vb, tags, indexErrMsg⟩,
        fs) := by
  unfold processReadable
  split <;> simp_all

theorem processReadable_empty_album (cfg : Config) (fs : FS) (f : MusicFile)
    (tags : List (String × List MVal)) (a0 : MVal) (arest : List MVal)
    (h : resolveIdentity tags = (TagData.found (a0 :: arest), TagData.found [])) :
    processReadable cfg fs f tags =
      (StepResult.errored
        ⟨f.file_name, TagData.found (a0 :: arest), TagData.found [], tags, indexErrMsg⟩, fs) := by
  unfold processReadable
  split <;> simp_all

theorem processReadable_skip (cfg : Config) (fs : FS) (f : MusicFile)
    (tags : List (String × List MVal)) (a0 b0 : MVal) (arest brest : List MVal)
    (h : resolveIdentity tags = (TagData.found (a0 :: arest), TagData.found (b0 :: brest)))
    (hex : plannedTarget cfg a0 b0 f.file_name ∈ fs.map Prod.fst) :
    processReadable cfg fs f tags =
      (StepResult.skipped ⟨f.file_name, plannedLocation cfg a0 b0, f.source_path, skipMsg⟩,
        fs) := by
  unfold processReadable
  split <;> simp_all

theorem processReadable_copyfail (cfg : Config) (fs : FS) (f : MusicFile)
    (tags : List (String × List MVal)) (a0 b0 : MVal) (arest brest : List MVal) (m : String)
    (h : resolveIdentity tags = (TagData.found (a0 :: arest), TagData.found (b0 :: brest)))
    (hex : plannedTarget cfg a0 b0 f.file_name ∉ fs.map Prod.fst)
    (hcf : f.copyFails = some m) :
    processReadable cfg fs f tags =
      (StepResult.errored
        ⟨f.file_name, TagData.found (a0 :: arest), TagData.found (b0 :: brest), tags,
          "Copy failed: " ++ m⟩, fs) := by
  unfold processReadable
  split <;> simp_all [copyFile]

theorem processReadable_moved (cfg : Config) (fs : FS) (f : MusicFile)
    (tags : List (String × List MVal)) (a0 b0 : MVal) (arest brest : List MVal)
    (h : resolveIdentity tags = (TagData.found (a0 :: arest), TagData.found (b0 :: brest)))
    (hex : plannedTarget cfg a0 b0 f.file_name ∉ fs.map Prod.fst)
    (hcf : f.copyFails = none) :
    processReadable cfg fs f tags =
      (StepResult.moved, (plannedTarget cfg a0 b0 f.file_name, f.content) :: fs) := by
  unfold processReadable
  split <;> simp_all [copyFile]

/-! ## Classification of the per-file outcomes -/

theorem processFile_unreadable_eq (cfg : Config) (fs : FS) (f : MusicFile) (m : String)
    (h : f.tags = TagSource.unreadable m) :
    processFile cfg fs f =
      (StepResult.errored ⟨f.file_name, TagData.unset, TagData.unset, [], m⟩, fs) := by
  unfold processFile
  split <;> simp_all

theorem processFile_readable_eq (cfg : Config) (fs : FS) (f : MusicFile)
    (tags : List (String × List MVal)) (h : f.tags = TagSource.readable tags) :
    processFile cfg fs f = processReadable cfg fs f tags := by
  unfold processFile
  split <;> simp_all

theorem copy_ne_skip (m : String) : "Copy failed: " ++ m ≠ skipMsg := by
  intro h
  have hd : ("Copy failed: " ++ m).data.head? = skipMsg.data.head? := by rw [h]
  rw [String.data_append, List.head?_append] at hd
  have h1 : ("Copy failed: ".data).head? = some 'C' := rfl
  have h2 : (skipMsg.data).head? = some 'F' := rfl
  rw [h1, h2] at hd
  have hd2 : (some 'C' : Option Char) = some 'F' := hd
  exact absurd hd2 (by decide)

theorem processReadable_errored (cfg : Config) (fs : FS) (f : MusicFile)
    (tags : List (String × List MVal)) (r : ErrRec)
    (h : (processReadable cfg fs f tags).1 = StepResult.errored r) :
    r.error = dataNotFoundMsg ∨ r.error = indexErrMsg ∨
      ∃ m, r.error = "Copy failed: " ++ m := by
  rcases hres : resolveIdentity tags with ⟨ad, bd⟩
  cases ad with
  | unset =>
    rw [processReadable_unset_artist cfg fs f tags bd hres] at h
    obtain rfl := StepResult.errored.inj h
    exact Or.inl rfl
  | found va =>
    cases bd with
    | unset =>
      rw [processReadable_unset_album cfg fs f tags va hres] at h
      obtain rfl := StepResult.errored.inj h
      exact Or.inl rfl
    | found vb =>
      cases va with
      | nil =>
        rw [processReadable_empty_artist cfg fs f tags vb hres] at h
        obtain rfl := StepResult.errored.inj h
        exact Or.inr (Or.inl rfl)
      | cons a0 arest =>
        cases vb with
        | nil =>
          rw [processReadable_empty_album cfg fs f tags a0 arest hres] at h
          obtain rfl := StepResult.errored.inj h
          exact Or.inr (Or.inl rfl)
        | cons b0 brest =>
          by_cases hex : plannedTarget cfg a0 b0 f.file_name ∈ fs.map Prod.fst
          · rw [processReadable_skip cfg fs f tags a0 b0 arest brest hres hex] at h
            exact absurd h (by simp)
          · cases hcf : f.copyFails with
            | some m =>
              rw [processReadable_copyfail cfg fs f tags a0 b0 arest brest m hres hex hcf] at h
              obtain rfl := StepResult.errored.inj h
              exact Or.inr (Or.inr ⟨m, rfl⟩)
            | none =>
              rw [processReadable_moved cfg fs f tags a0 b0 arest brest hres hex hcf] at h
              exact absurd h (by simp)

theorem processFile_errored (cfg : Config) (fs : FS) (f : MusicFile) (r : ErrRec)
    (h : (processFile cfg fs f).1 = StepResult.errored r) :
    (∃ m, f.tags = TagSource.unreadable m ∧ r.error = m) ∨
      r.error = dataNotFoundMsg ∨ r.error = indexErrMsg ∨
      ∃ m, r.error = "Copy failed: " ++ m := by
  cases htags : f.tags with
  | unreadable m =>
    rw [processFile_unreadable_eq cfg fs f m htags] at h
    obtain rfl := StepResult.errored.inj h
    exact Or.inl ⟨m, rfl, rfl⟩
  | readable tags =>
    rw [processFile_readable_eq cfg fs f tags htags] at h
    exact Or.inr (processReadable_errored cfg fs f tags r h)

theorem processFile_skipped (cfg : Config) (fs : FS) (f : MusicFile) (r : SkipRec)
    (h : (processFile cfg fs f).1 = StepResult.skipped r) : r.error = skipMsg := by
  cases htags : f.tags with
  | unreadable m =>
    rw [processFile_unreadable_eq cfg fs f m htags] at h
    exact absurd h (by simp)
  | readable tags =>
    rw [processFile_readable_eq cfg fs f tags htags] at h
    rcases hres : resolveIdentity tags with ⟨ad, bd⟩
    cases ad with
    | unset =>
      rw [processReadable_unset_artist cfg fs f tags bd hres] at h
      exact absurd h (by simp)
    | found va =>
      cases bd with
      | unset =>
        rw [processReadable_unset_album cfg fs f tags va hres] at h
        exact absurd h (by simp)
      | found vb =>
        cases va with
        | nil =>
          rw [processReadable_empty_artist cfg fs f tags vb hres] at h
          exact absurd h (by simp)
        | cons a0 arest =>
          cases vb with
          | nil =>
            rw [processReadable_empty_album cfg fs f tags a0 arest hres] at h
            exact absurd h (by simp)
          | cons b0 brest =>
            by_cases hex : plannedTarget cfg a0 b0 f.file_name ∈ fs.map Prod.fst
            · rw [processReadable_skip cfg fs f tags a0 b0 arest brest hres hex] at h
              obtain rfl := StepResult.skipped.inj h
              rfl
            · cases hcf : f.copyFails with
              | some m =>
                rw [processReadable_copyfail cfg fs f tags a0 b0 arest brest m hres hex hcf] at h
                exact absurd h (by simp)
              | none =>
                rw [processReadable_moved cfg fs f tags a0 b0 arest brest hres hex hcf] at h
                exact absurd h (by simp)

/-! ## Collision handling and identity failure -/

/-- C7: a per-file collision — the computed destination path is already present
in the destination tree at check time — performs no copy: the file is recorded
as `SkippedExisting` with the collision record of `_handle_existing_file`, and
the destination tree (every existing path and its content) is returned
unchanged. -/
theorem c7_collision_skips (cfg : Config) (fs : FS) (f : MusicFile)
    (tags : List (String × List MVal)) (a0 b0 : MVal) (arest brest : List MVal)
    (hread : f.tags = TagSource.readable tags)
    (hres : resolveIdentity tags = (TagData.found (a0 :: arest), TagData.found (b0 :: brest)))
    (hex : plannedTarget cfg a0 b0 f.file_name ∈ fs.map Prod.fst) :
    processFile cfg fs f =
      (StepResult.skipped ⟨f.file_name, plannedLocation cfg a0 b0, f.source_path, skipMsg⟩,
        fs) := by
  rw [processFile_readable_eq cfg fs f tags hread]
  exact processReadable_skip cfg fs f tags a0 b0 arest brest hres hex

/-- Witness for C7: a concrete file whose planned target is already present is
skipped and the destination tree is untouched. -/
theorem c7_witness :
    processFile sampleCfg [("dest/A/B/n.mp3", "old")]
        ⟨"n.mp3", "src/n.mp3", "new", TagSource.readable sampleTags, none⟩ =
      (StepResult.skipped ⟨"n.mp3", "dest/A/B", "src/n.mp3", skipMsg⟩,
        [("dest/A/B/n.mp3", "old")]) :=
  c7_collision_skips sampleCfg [("dest/A/B/n.mp3", "old")]
    ⟨"n.mp3", "src/n.mp3", "new", TagSource.readable sampleTags, none⟩
    sampleTags (MVal.plain "A") (MVal.plain "B") [] [] rfl (by decide) (by decide)

/-- C8: for every readable file whose tag map has no artist-alias key or no
album-alias key, the outcome is `Errored` with message exactly
`Artist or album data not found`, the record carrying the partial raw resolved
values — `unset` (the Python empty string) for whichever side was never
resolved. -/
theorem c8_identity_missing (cfg : Config) (fs : FS) (f : MusicFile)
    (tags : List (String × List MVal))
    (hread : f.tags = TagSource.readable tags)
    (hmiss : (∀ kv ∈ tags, strToLower kv.1 ∉ artist_values) ∨
      (∀ kv ∈ tags, strToLower kv.1 ∉ album_values)) :
    processFile cfg fs f =
      (StepResult.errored
        ⟨f.file_name, (resolveIdentity tags).1, (resolveIdentity tags).2, tags,
          dataNotFoundMsg⟩, fs) := by
  have hun : (resolveIdentity tags).1 = TagData.unset ∨
      (resolveIdentity tags).2 = TagData.unset := by
    rcases hmiss with hm | hm
    · exact Or.inl (foldl_fst_of_no_artist tags hm _)
    · exact Or.inr (foldl_snd_of_no_album tags hm _)
  rw [processFile_readable_eq cfg fs f tags hread]
  rcases hres : resolveIdentity tags with ⟨ad, bd⟩
  rw [hres] at hun
  cases ad with
  | unset =>
    rw [processReadable_unset_artist cfg fs f tags bd hres]
  | found va =>
    cases bd with
    | unset =>
      rw [processReadable_unset_album cfg fs f tags va hres]
    | found vb =>
      rcases hun with hun | hun <;> exact absurd hun (by simp)

/-- Witness for C8: a concrete file carrying only an artist tag is errored with
the identity-missing message, the album side reported unset. -/
theorem c8_witness :
    processFile sampleCfg []
        ⟨"x.mp3", "src/x.mp3", "c", TagSource.readable [("artist", [MVal.plain "A"])], none⟩ =
      (StepResult.errored
        ⟨"x.mp3", TagData.found [MVal.plain "A"], TagData.unset,
          [("artist", [MVal.plain "A"])], dataNotFoundMsg⟩, []) := by
  have h := c8_identity_missing sampleCfg []
    ⟨"x.mp3", "src/x.mp3", "c", TagSource.readable [("artist", [MVal.plain "A"])], none⟩
    [("artist", [MVal.plain "A"])] rfl (Or.inr (by decide))
  rw [h]
  rfl

/-! ## Lemmas about one iteration of the run loop -/

theorem bucketState_counted (st : RunState) (pr : StepResult × FS) :
    (bucketState st pr).counted = st.counted := by
  unfold bucketState
  split <;> rfl

theorem bucketState_progress (st : RunState) (pr : StepResult × FS) :
    (bucketState st pr).progress = st.progress := by
  unfold bucketState
  split <;> rfl

theorem bucketState_errorFiles (st : RunState) (pr : StepResult × FS) :
    (bucketState st pr).errorFiles = st.errorFiles ++
      (match pr.1 with
        | StepResult.errored r => [r]
        | _ => []) := by
  unfold bucketState
  split <;> simp_all

theorem bucketState_skipFiles (st : RunState) (pr : StepResult × FS) :
    (bucketState st pr).skipFiles = st.skipFiles ++
      (match pr.1 with
        | StepResult.skipped r => [r]
        | _ => []) := by
  unfold bucketState
  split <;> simp_all

theorem finallyCount_errorFiles (total : Nat) (st : RunState) (res : StepResult) :
    (finallyCount total st res).errorFiles = st.errorFiles := by
  unfold finallyCount
  split <;> rfl

theorem finallyCount_skipFiles (total : Nat) (st : RunState) (res : StepResult) :
    (finallyCount total st res).skipFiles = st.skipFiles := by
  unfold finallyCount
  split <;> rfl

theorem runStep_counted (cfg : Config) (total : Nat) (st : RunState) (f : MusicFile) :
    (runStep cfg total st f).counted =
      if countedCond (stepErrField (processFile cfg st.fs f).1) then st.counted + 1
      else st.counted := by
  unfold runStep finallyCount
  split <;> simp_all [bucketState_counted]

theorem runStep_errorFiles (cfg : Config) (total : Nat) (st : RunState) (f : MusicFile) :
    (runStep cfg total st f).errorFiles = st.errorFiles ++
      (match (processFile cfg st.fs f).1 with
        | StepResult.errored r => [r]
        | _ => []) := by
  unfold runStep
  rw [finallyCount_errorFiles, bucketState_errorFiles]

theorem runStep_skipFiles (cfg : Config) (total : Nat) (st : RunState) (f : MusicFile) :
    (runStep cfg total st f).skipFiles = st.skipFiles ++
      (match (processFile cfg st.fs f).1 with
        | StepResult.skipped r => [r]
        | _ => []) := by
  unfold runStep
  rw [finallyCount_skipFiles, bucketState_skipFiles]

theorem countedCond_none : countedCond none = true := rfl

theorem countedCond_skip : countedCond (some skipMsg) = false := by decide

theorem countedCond_eq (s : String) : countedCond (some s) = true ↔ s ≠ skipMsg := by
  simp only [countedCond, pyTruthy, pyGetNe]
  by_cases h0 : s = ""
  · subst h0
    decide
  · rw [if_neg h0]
    by_cases h1 : s = skipMsg
    · simp [h1]
    · simp [h1]

/-! ## C5: what the progress counter counts -/

/-- C5: for every file and every run state, the per-file iteration increments
the progress counter exactly when the file's outcome is `Moved` or `Errored`,
and leaves it unchanged for a `SkippedExisting` outcome; the hypothesis states
that the third-party tag reader never raises an exception whose text is
literally the collision message (true of every real tag reader — the engine's
own error messages are covered by the proof itself). -/
theorem c5_progress_counting (cfg : Config) (total : Nat) (st : RunState) (f : MusicFile)
    (henv : ∀ m, f.tags = TagSource.unreadable m → m ≠ skipMsg) :
    ((runStep cfg total st f).counted = st.counted + 1 ↔
      ((processFile cfg st.fs f).1 = StepResult.moved ∨
        ∃ r, (processFile cfg st.fs f).1 = StepResult.errored r)) ∧
    ∀ r, (processFile cfg st.fs f).1 = StepResult.skipped r →
      (runStep cfg total st f).counted = st.counted := by
  have hrsc := runStep_counted cfg total st f
  cases hres : (processFile cfg st.fs f).1 with
  | moved =>
    rw [hres] at hrsc
    constructor
    · rw [hrsc]
      simp [hres, stepErrField, countedCond_none]
    · intro r hr
      exact absurd hr (by simp)
  | skipped r0 =>
    have hmsg := processFile_skipped cfg st.fs f r0 hres
    have hc : countedCond (stepErrField (StepResult.skipped r0)) = false := by
      show countedCond (some r0.error) = false
      rw [hmsg]
      exact countedCond_skip
    rw [hres, hc] at hrsc
    constructor
    · rw [hrsc]
      simp [hres]
    · intro r hr
      rw [hrsc]
      simp
  | errored r0 =>
    have hne : r0.error ≠ skipMsg := by
      rcases processFile_errored cfg st.fs f r0 hres with ⟨m, hm, he⟩ | he | he | ⟨m, he⟩
      · rw [he]; exact henv m hm
      · rw [he]; decide
      · rw [he]; decide
      · rw [he]; exact copy_ne_skip m
    have hc : countedCond (stepErrField (StepResult.errored r0)) = true := by
      show countedCond (some r0.error) = true
      exact (countedCond_eq r0.error).mpr hne
    rw [hres, hc] at hrsc
    constructor
    · rw [hrsc]
      simp [hres]
    · intro r hr
      exact absurd hr (by simp)

/-- Witness for C5 at a concrete moved file. -/
theorem c5_witness :
    ((runStep sampleCfg 1 (initState []) (sampleFile "1.mp3")).counted
        = (initState []).counted + 1 ↔
      ((processFile sampleCfg (initState []).fs (sampleFile "1.mp3")).1 = StepResult.moved ∨
        ∃ r, (processFile sampleCfg (initState []).fs (sampleFile "1.mp3")).1
          = StepResult.errored r)) ∧
    ∀ r, (processFile sampleCfg (initState []).fs (sampleFile "1.mp3")).1
        = StepResult.skipped r →
      (runStep sampleCfg 1 (initState []) (sampleFile "1.mp3")).counted
        = (initState []).counted :=
  c5_progress_counting sampleCfg 1 (initState []) (sampleFile "1.mp3")
    (fun m h => by simp [sampleFile] at h)

/-! ## C10: an empty matched tag value is a per-file error only -/

theorem runLoop_append (cfg : Config) (total : Nat) (st : RunState)
    (l1 l2 : List MusicFile) :
    runLoop cfg total st (l1 ++ l2) = runLoop cfg total (runLoop cfg total st l1) l2 := by
  unfold runLoop
  exact List.foldl_append _ _ _ _

theorem errorFiles_mono (cfg : Config) (total : Nat) (files : List MusicFile) :
    ∀ (st : RunState) (r : ErrRec), r ∈ st.errorFiles →
      r ∈ (runLoop cfg total st files).errorFiles := by
  induction files with
  | nil => exact fun st r h => h
  | cons f rest ih =>
    intro st r h
    show r ∈ (runLoop cfg total (runStep cfg total st f) rest).errorFiles
    apply ih
    rw [runStep_errorFiles]
    exact List.mem_append_left _ h

/-- C10: a file whose matched artist or album value is an empty sequence (so
taking its first element raises `IndexError`) is handled at the per-file
boundary: it yields an `Errored` record carrying the raw resolved values and
the exception text, the destination tree is untouched, and a run containing it
anywhere still terminates with the final result event, the record included. -/
theorem c10_empty_value_errored (cfg : Config) (fs0 fs : FS)
    (pre post : List MusicFile) (f : MusicFile)
    (tags : List (String × List MVal)) (va vb : List MVal)
    (hread : f.tags = TagSource.readable tags)
    (hres : resolveIdentity tags = (TagData.found va, TagData.found vb))
    (hemp : va = [] ∨ vb = []) :
    processFile cfg fs f =
      (StepResult.errored
        ⟨f.file_name, TagData.found va, TagData.found vb, tags, indexErrMsg⟩, fs) ∧
    ∃ errs skips,
      (organizeRun cfg (pre ++ f :: post) fs0).1.getLast? =
        some (Event.organizeFinish errs skips) ∧
      (⟨f.file_name, TagData.found va, TagData.found vb, tags, indexErrMsg⟩ : ErrRec) ∈ errs := by
  have hpf : ∀ fs2 : FS, processFile cfg fs2 f =
      (StepResult.errored
        ⟨f.file_name, TagData.found va, TagData.found vb, tags, indexErrMsg⟩, fs2) := by
    intro fs2
    rw [processFile_readable_eq cfg fs2 f tags hread]
    rcases hemp with rfl | rfl
    · exact processReadable_empty_artist cfg fs2 f tags vb hres
    · cases va with
      | nil => exact processReadable_empty_artist cfg fs2 f tags [] hres
      | cons a0 arest => exact processReadable_empty_album cfg fs2 f tags a0 arest hres
  refine ⟨hpf fs, ?_⟩
  have hlen : (pre ++ f :: post).length ≠ 0 := by simp
  have hev : (organizeRun cfg (pre ++ f :: post) fs0).1 =
      [Event.numberSongs (pre ++ f :: post).length] ++
        (runLoop cfg (pre ++ f :: post).length (initState fs0)
          (pre ++ f :: post)).progress.map Event.progress ++
        [Event.organizeFinish
          (runLoop cfg (pre ++ f :: post).length (initState fs0) (pre ++ f :: post)).errorFiles
          (runLoop cfg (pre ++ f :: post).length (initState fs0)
            (pre ++ f :: post)).skipFiles] := by
    unfold organizeRun
    rw [if_pos hlen]
  refine ⟨(runLoop cfg (pre ++ f :: post).length (initState fs0) (pre ++ f :: post)).errorFiles,
    (runLoop cfg (pre ++ f :: post).length (initState fs0) (pre ++ f :: post)).skipFiles,
    ?_, ?_⟩
  · rw [hev]
    exact List.getLast?_concat _
  · rw [runLoop_append]
    show _ ∈ (runLoop cfg (pre ++ f :: post).length
      (runStep cfg (pre ++ f :: post).length
        (runLoop cfg (pre ++ f :: post).length (initState fs0) pre) f) post).errorFiles
    apply errorFiles_mono
    rw [runStep_errorFiles]
    rw [hpf ((runLoop cfg (pre ++ f :: post).length (initState fs0) pre).fs)]
    simp

/-- Witness for C10: a concrete file carrying an empty artist value sequence is
errored with the IndexError text and the run still finishes. -/
theorem c10_witness :
    processFile sampleCfg []
        ⟨"e.mp3", "src/e.mp3", "c",
          TagSource.readable [("artist", []), ("album", [MVal.plain "B"])], none⟩ =
      (StepResult.errored
        ⟨"e.mp3", TagData.found [], TagData.found [MVal.plain "B"],
          [("artist", []), ("album", [MVal.plain "B"])], indexErrMsg⟩, []) ∧
    ∃ errs skips,
      (organizeRun sampleCfg
        ([] ++ (⟨"e.mp3", "src/e.mp3", "c",
          TagSource.readable [("artist", []), ("album", [MVal.plain "B"])], none⟩ : MusicFile)
          :: []) []).1.getLast? = some (Event.organizeFinish errs skips) ∧
      (⟨"e.mp3", TagData.found [], TagData.found [MVal.plain "B"],
        [("artist", []), ("album", [MVal.plain "B"])], indexErrMsg⟩ : ErrRec) ∈ errs :=
  c10_empty_value_errored sampleCfg [] [] [] []
    ⟨"e.mp3", "src/e.mp3", "c",
      TagSource.readable [("artist", []), ("album", [MVal.plain "B"])], none⟩
    [("artist", []), ("album", [MVal.plain "B"])] [] [MVal.plain "B"]
    rfl (by decide) (Or.inl rfl)

/-! ## The shape of the progress event sequence -/

theorem progressValues_run (cfg : Config) (files : List MusicFile) (fs0 : FS)
    (h : files.length ≠ 0) :
    progressValues (organizeRun cfg files fs0).1 =
      (runLoop cfg files.length (initState fs0) files).progress := by
  unfold organizeRun
  rw [if_pos h]
  unfold progressValues
  rw [List.filterMap_append, List.filterMap_append, List.filterMap_map]
  simp
  exact List.filterMap_some _

theorem runLoop_progress_shape (cfg : Config) (total : Nat) (files : List MusicFile) :
    ∀ st : RunState,
      st.progress = (List.range st.counted).map (fun k => pyPct (k + 1) total) →
      (runLoop cfg total st files).progress =
        (List.range (runLoop cfg total st files).counted).map
          (fun k => pyPct (k + 1) total) := by
  induction files with
  | nil => exact fun st h => h
  | cons f rest ih =>
    intro st h
    show (runLoop cfg total (runStep cfg total st f) rest).progress = _
    apply ih
    unfold runStep finallyCount
    split
    · simp only [bucketState_progress, bucketState_counted]
      rw [h, List.range_succ, List.map_append]
      rfl
    · simpa [bucketState_progress, bucketState_counted] using h

theorem runLoop_count_split (cfg : Config) (total : Nat) (files : List MusicFile) :
    ∀ st : RunState,
      (runLoop cfg total st files).counted + badRec (runLoop cfg total st files) =
        st.counted + badRec st + files.length := by
  induction files with
  | nil => intro st; rfl
  | cons f rest ih =>
    intro st
    show (runLoop cfg total (runStep cfg total st f) rest).counted +
        badRec (runLoop cfg total (runStep cfg total st f) rest) =
      st.counted + badRec st + (f :: rest).length
    rw [ih (runStep cfg total st f)]
    have hstep : (runStep cfg total st f).counted + badRec (runStep cfg total st f) =
        st.counted + badRec st + 1 := by
      have hc := runStep_counted cfg total st f
      have he := runStep_errorFiles cfg total st f
      have hs := runStep_skipFiles cfg total st f
      cases hres : (processFile cfg st.fs f).1 with
      | moved =>
        rw [hres] at hc he hs
        have hcc : countedCond (stepErrField StepResult.moved) = true := rfl
        rw [hcc] at hc
        simp only [if_pos rfl] at hc
        unfold badRec
        rw [hc, he, hs]
        simp [badRec]
        omega
      | skipped r0 =>
        have hmsg := processFile_skipped cfg st.fs f r0 hres
        rw [hres] at hc he hs
        have hcc : countedCond (stepErrField (StepResult.skipped r0)) = false := by
          show countedCond (some r0.error) = false
          rw [hmsg]
          exact countedCond_skip
        rw [hcc] at hc
        simp only [Bool.false_eq_true, if_false] at hc
        unfold badRec
        rw [hc, he, hs]
        simp [badRec]
        omega
      | errored r0 =>
        rw [hres] at hc he hs
        by_cases hb : r0.error = skipMsg
        · have hcc : countedCond (stepErrField (StepResult.errored r0)) = false := by
            show countedCond (some r0.error) = false
            rw [hb]
            exact countedCond_skip
          rw [hcc] at hc
          simp only [Bool.false_eq_true, if_false] at hc
          unfold badRec
          rw [hc, he, hs]
          simp [badRec, List.filter_append, hb]
          omega
        · have hcc : countedCond (stepErrField (StepResult.errored r0)) = true := by
            show countedCond (some r0.error) = true
            exact (countedCond_eq r0.error).mpr hb
          rw [hcc] at hc
          simp only [if_pos rfl] at hc
          unfold badRec
          rw [hc, he, hs]
          simp [badRec, List.filter_append, hb]
          omega
    simp only [List.length_cons]
    omega

/-! ### Properties of the binary64 rounding model -/

theorem nlog2Aux_spec : ∀ (fuel n : Nat), 1 ≤ n → n ≤ fuel →
    2 ^ nlog2Aux fuel n ≤ n ∧ n < 2 ^ (nlog2Aux fuel n + 1) := by
  intro fuel
  induction fuel with
  | zero => intro n h1 h2; omega
  | succ fuel ih =>
    intro n h1 h2
    by_cases h : 2 ≤ n
    · rw [show nlog2Aux (fuel + 1) n = nlog2Aux fuel (n / 2) + 1 from by
        simp [nlog2Aux, h]]
      obtain ⟨ha, hb⟩ := ih (n / 2) (by omega) (by omega)
      rw [pow_succ] at hb
      constructor
      · rw [pow_succ]
        omega
      · rw [pow_succ, pow_succ]
        omega
    · rw [show nlog2Aux (fuel + 1) n = 0 from by simp [nlog2Aux, h]]
      simp only [pow_zero, zero_add, pow_one]
      omega

theorem nlog2_spec (n : Nat) (h : 1 ≤ n) :
    2 ^ nlog2 n ≤ n ∧ n < 2 ^ (nlog2 n + 1) := nlog2Aux_spec n n h le_rfl

theorem divExpAux_spec : ∀ (fuel i n : Nat), 1 ≤ i → n ≤ i * 2 ^ fuel →
    n ≤ i * 2 ^ divExpAux fuel i n ∧ ∀ s < divExpAux fuel i n, i * 2 ^ s < n := by
  intro fuel
  induction fuel with
  | zero =>
    intro i n h1 h2
    refine ⟨by simpa [divExpAux] using h2, ?_⟩
    intro s hs
    exact absurd hs (by simp [divExpAux])
  | succ fuel ih =>
    intro i n h1 h2
    by_cases h : n ≤ i
    · refine ⟨by simp [divExpAux, h], ?_⟩
      intro s hs
      simp [divExpAux, h] at hs
    · have hr : i * 2 ^ (fuel + 1) = 2 * i * 2 ^ fuel := by ring
      rw [hr] at h2
      obtain ⟨ha, hb⟩ := ih (2 * i) n (by omega) h2
      have hv : divExpAux (fuel + 1) i n = divExpAux fuel (2 * i) n + 1 := by
        simp [divExpAux, h]
      constructor
      · rw [hv]
        calc n ≤ 2 * i * 2 ^ divExpAux fuel (2 * i) n := ha
          _ = i * 2 ^ (divExpAux fuel (2 * i) n + 1) := by ring
      · intro s hs
        rw [hv] at hs
        cases s with
        | zero =>
          simpa using (by omega : i < n)
        | succ s2 =>
          calc i * 2 ^ (s2 + 1) = 2 * i * 2 ^ s2 := by ring
            _ < n := hb s2 (by omega)

theorem fdivExp_spec (i n : Nat) (hi : 1 ≤ i) :
    n ≤ i * 2 ^ fdivExp i n ∧ ∀ s < fdivExp i n, i * 2 ^ s < n := by
  apply divExpAux_spec n i n hi
  calc n ≤ 2 ^ n := Nat.le_of_lt (Nat.lt_two_pow n)
    _ ≤ i * 2 ^ n := Nat.le_mul_of_pos_left _ hi

theorem rne_bounds (num den : Nat) :
    num / den ≤ rne num den ∧ rne num den ≤ num / den + 1 := by
  unfold rne
  split_ifs <;> omega

theorem rneInt_bounds (q : ℚ) : ⌊q⌋ ≤ rneInt q ∧ rneInt q ≤ ⌊q⌋ + 1 := by
  unfold rneInt
  split_ifs <;> omega

theorem rneInt_intCast (z : ℤ) : rneInt (z : ℚ) = z := by
  unfold rneInt
  rw [Int.floor_intCast]
  norm_num

theorem rneInt_mono {q1 q2 : ℚ} (h : q1 ≤ q2) : rneInt q1 ≤ rneInt q2 := by
  have hf : ⌊q1⌋ ≤ ⌊q2⌋ := Int.floor_mono h
  rcases lt_or_eq_of_le hf with hlt | heq
  · calc rneInt q1 ≤ ⌊q1⌋ + 1 := (rneInt_bounds q1).2
      _ ≤ ⌊q2⌋ := by omega
      _ ≤ rneInt q2 := (rneInt_bounds q2).1
  · have hfr : q1 - (⌊q1⌋ : ℚ) ≤ q2 - (⌊q2⌋ : ℚ) := by
      rw [← heq]
      linarith
    unfold rneInt
    rw [← heq]
    rw [← heq] at hfr
    split_ifs <;> first | omega | linarith

theorem rndGrid_mono (g : ℤ) {q1 q2 : ℚ} (h : q1 ≤ q2) : rndGrid g q1 ≤ rndGrid g q2 := by
  unfold rndGrid
  have hp : (0:ℚ) < 2 ^ (-g) := zpow_pos (by norm_num) _
  have h2 := rneInt_mono (mul_le_mul_of_nonneg_right h (le_of_lt hp))
  exact mul_le_mul_of_nonneg_right (by exact_mod_cast h2)
    (le_of_lt (zpow_pos (by norm_num) _))

theorem rndGrid_nonneg (g : ℤ) {q : ℚ} (hq : 0 ≤ q) : 0 ≤ rndGrid g q := by
  unfold rndGrid
  have h0 : (0:ℤ) ≤ ⌊q * 2 ^ (-g)⌋ := Int.floor_nonneg.mpr (by positivity)
  have h1 := (rneInt_bounds (q * 2 ^ (-g))).1
  have h2 : (0:ℤ) ≤ rneInt (q * 2 ^ (-g)) := by omega
  exact mul_nonneg (by exact_mod_cast h2) (le_of_lt (zpow_pos (by norm_num) _))

theorem rndGrid_le_pow {g E : ℤ} {q : ℚ} (hq : q < 2 ^ E) (hgE : g ≤ E) :
    rndGrid g q ≤ 2 ^ E := by
  unfold rndGrid
  have hEg : (0:ℤ) ≤ E - g := by omega
  have hx : q * 2 ^ (-g) < ((2 ^ (E - g).toNat : ℤ) : ℚ) := by
    push_cast
    rw [← zpow_natCast (2:ℚ), Int.toNat_of_nonneg hEg]
    calc q * 2 ^ (-g) < 2 ^ E * 2 ^ (-g) :=
          mul_lt_mul_of_pos_right hq (zpow_pos (by norm_num) _)
      _ = 2 ^ (E - g) := by
          rw [← zpow_add₀ (by norm_num : (2:ℚ) ≠ 0), ← sub_eq_add_neg]
  have hfl : ⌊q * 2 ^ (-g)⌋ < 2 ^ (E - g).toNat := Int.floor_lt.mpr hx
  have hr : rneInt (q * 2 ^ (-g)) ≤ 2 ^ (E - g).toNat := by
    have := (rneInt_bounds (q * 2 ^ (-g))).2
    omega
  calc (rneInt (q * 2 ^ (-g)) : ℚ) * 2 ^ g ≤ ((2 ^ (E - g).toNat : ℤ) : ℚ) * 2 ^ g := by
        exact mul_le_mul_of_nonneg_right (by exact_mod_cast hr)
          (le_of_lt (zpow_pos (by norm_num) _))
    _ = 2 ^ E := by
        push_cast
        rw [← zpow_natCast (2:ℚ), Int.toNat_of_nonneg hEg,
          ← zpow_add₀ (by norm_num : (2:ℚ) ≠ 0), sub_add_cancel]

theorem rndGrid_ge_pow {g e : ℤ} {q : ℚ} (hq : 2 ^ e ≤ q) (hge : g ≤ e) :
    2 ^ e ≤ rndGrid g q := by
  unfold rndGrid
  have heg : (0:ℤ) ≤ e - g := by omega
  have hx : ((2 ^ (e - g).toNat : ℤ) : ℚ) ≤ q * 2 ^ (-g) := by
    push_cast
    rw [← zpow_natCast (2:ℚ), Int.toNat_of_nonneg heg]
    calc (2:ℚ) ^ (e - g) = 2 ^ e * 2 ^ (-g) := by
          rw [← zpow_add₀ (by norm_num : (2:ℚ) ≠ 0), ← sub_eq_add_neg]
      _ ≤ q * 2 ^ (-g) :=
          mul_le_mul_of_nonneg_right hq (le_of_lt (zpow_pos (by norm_num) _))
  have hfl : (2 ^ (e - g).toNat : ℤ) ≤ ⌊q * 2 ^ (-g)⌋ := Int.le_floor.mpr hx
  have hr : (2 ^ (e - g).toNat : ℤ) ≤ rneInt (q * 2 ^ (-g)) := by
    have := (rneInt_bounds (q * 2 ^ (-g))).1
    omega
  calc (2:ℚ) ^ e = ((2 ^ (e - g).toNat : ℤ) : ℚ) * 2 ^ g := by
        push_cast
        rw [← zpow_natCast (2:ℚ), Int.toNat_of_nonneg heg,
          ← zpow_add₀ (by norm_num : (2:ℚ) ≠ 0), sub_add_cancel]
    _ ≤ (rneInt (q * 2 ^ (-g)) : ℚ) * 2 ^ g :=
        mul_le_mul_of_nonneg_right (by exact_mod_cast hr)
          (le_of_lt (zpow_pos (by norm_num) _))

theorem qexp_spec {q : ℚ} (hq : 0 < q) :
    2 ^ qexp q ≤ q ∧ q < 2 ^ (qexp q + 1) := by
  unfold qexp
  have hnum : 0 < q.num := Rat.num_pos.mpr hq
  have hden : 0 < q.den := q.den_pos
  obtain ⟨ha1, ha2⟩ := nlog2_spec q.num.toNat (by omega)
  obtain ⟨hb1, hb2⟩ := nlog2_spec q.den (by omega)
  set a := nlog2 q.num.toNat with haa
  set b := nlog2 q.den with hbb
  have hqeq : ((q.num : ℚ)) / q.den = q := Rat.num_div_den q
  have hnum2 : ((q.num.toNat : ℕ) : ℚ) = (q.num : ℚ) := by
    exact_mod_cast congrArg (fun z : ℤ => (z : ℚ)) (Int.toNat_of_nonneg (by omega))
  have hN1 : (2:ℚ) ^ (a : ℤ) ≤ (q.num : ℚ) := by
    rw [zpow_natCast]
    calc (2:ℚ) ^ a = ((2 ^ a : ℕ) : ℚ) := by push_cast; ring
      _ ≤ ((q.num.toNat : ℕ) : ℚ) := by exact_mod_cast ha1
      _ = (q.num : ℚ) := hnum2
  have hN2 : (q.num : ℚ) < 2 ^ ((a : ℤ) + 1) := by
    rw [show ((a : ℤ) + 1) = ((a + 1 : ℕ) : ℤ) by push_cast; ring, zpow_natCast]
    calc (q.num : ℚ) = ((q.num.toNat : ℕ) : ℚ) := hnum2.symm
      _ < ((2 ^ (a + 1) : ℕ) : ℚ) := by exact_mod_cast ha2
      _ = (2:ℚ) ^ (a + 1) := by push_cast; ring
  have hD1 : (2:ℚ) ^ (b : ℤ) ≤ (q.den : ℚ) := by
    rw [zpow_natCast]
    calc (2:ℚ) ^ b = ((2 ^ b : ℕ) : ℚ) := by push_cast; ring
      _ ≤ ((q.den : ℕ) : ℚ) := by exact_mod_cast hb1
  have hD2 : (q.den : ℚ) < 2 ^ ((b : ℤ) + 1) := by
    rw [show ((b : ℤ) + 1) = ((b + 1 : ℕ) : ℤ) by push_cast; ring, zpow_natCast]
    calc (q.den : ℚ) < ((2 ^ (b + 1) : ℕ) : ℚ) := by exact_mod_cast hb2
      _ = (2:ℚ) ^ (b + 1) := by push_cast; ring
  have hDpos : (0:ℚ) < (q.den : ℚ) := by exact_mod_cast hden
  have hup : q < 2 ^ ((a : ℤ) - b + 1) := by
    rw [← hqeq]
    calc (q.num : ℚ) / q.den < 2 ^ ((a : ℤ) + 1) / 2 ^ (b : ℤ) := by
          exact div_lt_div hN2 hD1 (le_of_lt (zpow_pos (by norm_num) _))
            (zpow_pos (by norm_num) _)
      _ = 2 ^ ((a : ℤ) - b + 1) := by
          rw [← zpow_sub₀ (by norm_num : (2:ℚ) ≠ 0)]
          congr 1
          ring
  have hlo : 2 ^ ((a : ℤ) - b - 1) < q := by
    rw [← hqeq]
    calc (2:ℚ) ^ ((a : ℤ) - b - 1) = 2 ^ (a : ℤ) / 2 ^ ((b : ℤ) + 1) := by
          rw [← zpow_sub₀ (by norm_num : (2:ℚ) ≠ 0)]
          congr 1
          ring
      _ < (q.num : ℚ) / q.den := by
          exact div_lt_div' hN1 hD2 (by exact_mod_cast hnum) hDpos
  by_cases hc : (2 : ℚ) ^ ((a : ℤ) - b) ≤ q
  · rw [if_pos hc]
    exact ⟨hc, hup⟩
  · rw [if_neg hc]
    push_neg at hc
    refine ⟨le_of_lt ?_, ?_⟩
    · exact hlo
    · rw [show (a : ℤ) - b - 1 + 1 = (a : ℤ) - b by ring]
      exact hc

theorem qexp_unique {q : ℚ} {e : ℤ} (h1 : 2 ^ e ≤ q) (h2 : q < 2 ^ (e + 1)) :
    qexp q = e := by
  have hq : 0 < q := lt_of_lt_of_le (zpow_pos (by norm_num) e) h1
  obtain ⟨hs1, hs2⟩ := qexp_spec hq
  by_contra hne
  rcases lt_or_gt_of_ne hne with hlt | hgt
  · have hle : (2:ℚ) ^ (qexp q + 1) ≤ 2 ^ e := zpow_le_zpow_right₀ (by norm_num) (by omega)
    linarith
  · have hle : (2:ℚ) ^ (e + 1) ≤ 2 ^ qexp q := zpow_le_zpow_right₀ (by norm_num) (by omega)
    linarith

theorem fpRound_nonneg (q : ℚ) : 0 ≤ fpRound q := by
  unfold fpRound
  split_ifs with h
  · exact rndGrid_nonneg _ (le_of_lt h)
  · exact le_refl 0

theorem fpRound_mono {q1 q2 : ℚ} (h0 : 0 ≤ q1) (h : q1 ≤ q2) :
    fpRound q1 ≤ fpRound q2 := by
  rcases eq_or_lt_of_le h0 with heq | hq1
  · rw [show fpRound q1 = 0 from by rw [← heq]; unfold fpRound; simp]
    exact fpRound_nonneg q2
  · have hq2 : 0 < q2 := lt_of_lt_of_le hq1 h
    unfold fpRound
    rw [if_pos hq1, if_pos hq2]
    obtain ⟨h11, h12⟩ := qexp_spec hq1
    obtain ⟨h21, h22⟩ := qexp_spec hq2
    have he : qexp q1 ≤ qexp q2 := by
      by_contra hcc
      push_neg at hcc
      have hle : (2:ℚ) ^ (qexp q2 + 1) ≤ 2 ^ qexp q1 :=
        zpow_le_zpow_right₀ (by norm_num) (by omega)
      linarith
    by_cases hg : max (qexp q1 - 52) (-1074 : ℤ) = max (qexp q2 - 52) (-1074)
    · rw [hg]
      exact rndGrid_mono _ h
    · have he1e2 : qexp q1 < qexp q2 := by
        rcases lt_or_eq_of_le he with h' | h'
        · exact h'
        · exact absurd (by rw [h']) hg
      have hg2 : max (qexp q2 - 52) (-1074 : ℤ) = qexp q2 - 52 := by
        rcases le_total (qexp q2 - 52) (-1074 : ℤ) with hcase | hcase
        · exfalso
          apply hg
          rw [max_eq_right hcase, max_eq_right (by omega)]
        · exact max_eq_left hcase
      have he2ge : (-1021 : ℤ) ≤ qexp q2 := by
        by_contra hcc
        push_neg at hcc
        apply hg
        rw [max_eq_right (by omega), max_eq_right (by omega)]
      have hdn : (2:ℚ) ^ qexp q2 ≤ rndGrid (qexp q2 - 52) q2 :=
        rndGrid_ge_pow h21 (by omega)
      rw [hg2]
      by_cases hsub : (-1075 : ℤ) ≤ qexp q1
      · have hup : rndGrid (max (qexp q1 - 52) (-1074)) q1 ≤ 2 ^ (qexp q1 + 1) :=
          rndGrid_le_pow h12 (max_le (by omega) (by omega))
        calc rndGrid (max (qexp q1 - 52) (-1074)) q1 ≤ 2 ^ (qexp q1 + 1) := hup
          _ ≤ 2 ^ qexp q2 := zpow_le_zpow_right₀ (by norm_num) (by omega)
          _ ≤ rndGrid (qexp q2 - 52) q2 := hdn
      · push_neg at hsub
        have hq1small : q1 < (2:ℚ) ^ (-1074 : ℤ) :=
          lt_of_lt_of_le h12 (zpow_le_zpow_right₀ (by norm_num) (by omega))
        have hup : rndGrid (max (qexp q1 - 52) (-1074)) q1 ≤ 2 ^ (-1074 : ℤ) :=
          rndGrid_le_pow hq1small (max_le (by omega) le_rfl)
        calc rndGrid (max (qexp q1 - 52) (-1074)) q1 ≤ 2 ^ (-1074 : ℤ) := hup
          _ ≤ 2 ^ qexp q2 := zpow_le_zpow_right₀ (by norm_num) (by omega)
          _ ≤ rndGrid (qexp q2 - 52) q2 := hdn

theorem rne_eq_rneInt (num den : Nat) (h : 0 < den) :
    (rne num den : ℤ) = rneInt ((num : ℚ) / den) := by
  have hdQ : (0:ℚ) < (den : ℚ) := by exact_mod_cast h
  have hfl : ⌊((num : ℚ) / den)⌋ = ((num / den : ℕ) : ℤ) := by
    exact_mod_cast Rat.floor_natCast_div_natCast num den
  have hc0 : ((num : ℚ)) = (den : ℚ) * ((num / den : ℕ) : ℚ) + ((num % den : ℕ) : ℚ) := by
    exact_mod_cast (Nat.div_add_mod num den).symm
  have hfr : (num : ℚ) / den - ((num / den : ℕ) : ℚ) = ((num % den : ℕ) : ℚ) / den := by
    field_simp
    linarith
  have hc1 : ((num % den : ℕ) : ℚ) / den < 1 / 2 ↔ 2 * (num % den) < den := by
    rw [div_lt_div_iff hdQ (by norm_num : (0:ℚ) < 2), one_mul]
    norm_cast
    omega
  have hc2 : (1:ℚ) / 2 < ((num % den : ℕ) : ℚ) / den ↔ den < 2 * (num % den) := by
    rw [div_lt_div_iff (by norm_num : (0:ℚ) < 2) hdQ, one_mul]
    norm_cast
    omega
  have hc3 : (((num / den : ℕ) : ℤ)) % 2 = 0 ↔ (num / den) % 2 = 0 := by omega
  unfold rneInt rne
  rw [hfl]
  have hcast : ((((num / den : ℕ) : ℤ)) : ℚ) = ((num / den : ℕ) : ℚ) :=
    Int.cast_natCast _
  rw [hcast, hfr]
  simp only [hc1, hc2, hc3]
  split_ifs <;> push_cast <;> ring

theorem fpRound_eq_dyadic {q : ℚ} {s : Nat} (hq : 0 < q)
    (hgrid : max (qexp q - 52) (-1074) = -(s : ℤ)) :
    fpRound q = (rneInt (q * 2 ^ s) : ℚ) / 2 ^ s := by
  unfold fpRound rndGrid
  rw [if_pos hq, hgrid, neg_neg, zpow_natCast, zpow_neg, zpow_natCast, div_eq_mul_inv]

theorem fpDivSig_spec (i n : Nat) (hi : 1 ≤ i) (hin : i ≤ n) :
    fpRound ((i : ℚ) / n) = ((fpDivSig i n).1 : ℚ) / 2 ^ (fpDivSig i n).2 ∧
    52 ≤ (fpDivSig i n).2 ∧ (fpDivSig i n).1 ≤ 2 ^ 53 := by
  have hn : 0 < n := lt_of_lt_of_le hi hin
  have hnQ : (0:ℚ) < (n:ℚ) := by exact_mod_cast hn
  have hq : 0 < (i:ℚ)/n := div_pos (by exact_mod_cast hi) hnQ
  obtain ⟨ht1, ht2⟩ := fdivExp_spec i n hi
  set t := fdivExp i n with htt
  have hbr1 : (2:ℚ) ^ (-(t:ℤ)) ≤ (i:ℚ)/n := by
    rw [zpow_neg, zpow_natCast, inv_eq_one_div, div_le_div_iff (by positivity) hnQ, one_mul]
    exact_mod_cast ht1
  have hbr2 : (i:ℚ)/n < 2 ^ (1 - (t:ℤ)) := by
    rcases Nat.eq_zero_or_pos t with ht0 | htpos
    · rw [ht0]
      norm_num
      calc (i:ℚ)/n ≤ 1 := by
            rw [div_le_one hnQ]
            exact_mod_cast hin
        _ < 2 := by norm_num
    · have hlt := ht2 (t-1) (by omega)
      rw [show (1 - (t:ℤ)) = -(((t - 1 : ℕ)):ℤ) by push_cast [htpos]; omega]
      rw [zpow_neg, zpow_natCast, inv_eq_one_div, div_lt_div_iff hnQ (by positivity), one_mul]
      exact_mod_cast hlt
  have hqe : qexp ((i:ℚ)/n) = -(t:ℤ) :=
    qexp_unique hbr1 (by rw [show -(t:ℤ)+1 = 1 - t by ring]; exact hbr2)
  unfold fpDivSig
  rw [← htt]
  by_cases hcase : t ≤ 1022
  · rw [if_pos hcase]
    have hgrid : max (qexp ((i:ℚ)/n) - 52) (-1074 : ℤ) = -((52 + t : ℕ) : ℤ) := by
      rw [hqe, max_eq_left (by push_cast; omega)]
      push_cast
      ring
    have hfr := fpRound_eq_dyadic hq hgrid
    have hnat : i * 2 ^ (52 + t) < 2 ^ 53 * n := by
      rcases Nat.eq_zero_or_pos t with ht0 | htpos
      · rw [ht0]
        have h1 : i * 2 ^ (52 + 0) ≤ 2 ^ 52 * n := by
          calc i * 2 ^ (52 + 0) = 2 ^ 52 * i := by ring
            _ ≤ 2 ^ 52 * n := Nat.mul_le_mul_left _ hin
        have h2 : (2:ℕ) ^ 53 * n = 2 * (2 ^ 52 * n) := by ring
        have h3 : 0 < 2 ^ 52 * n := by positivity
        omega
      · have hlt := ht2 (t-1) (by omega)
        calc i * 2 ^ (52 + t) = i * 2 ^ (t-1) * 2 ^ 53 := by
              rw [mul_assoc, ← pow_add]
              congr 2
              omega
          _ < n * 2 ^ 53 := by
              exact Nat.mul_lt_mul_of_lt_of_le hlt (le_refl _) (by positivity)
          _ = 2 ^ 53 * n := mul_comm _ _
    have hdivlt : i * 2 ^ (52 + t) / n < 2 ^ 53 := by
      rw [Nat.div_lt_iff_lt_mul hn]
      omega
    refine ⟨?_, by simp, ?_⟩
    · rw [hfr]
      have harg : ((i:ℚ)/n) * 2 ^ (52 + t) = ((i * 2 ^ (52 + t) : ℕ) : ℚ) / n := by
        push_cast
        ring
      rw [harg, ← rne_eq_rneInt _ _ hn]
      push_cast
      ring
    · have := (rne_bounds (i * 2 ^ (52 + t)) n).2
      omega
  · rw [if_neg hcase]
    have hgrid : max (qexp ((i:ℚ)/n) - 52) (-1074 : ℤ) = -((1074 : ℕ) : ℤ) := by
      rw [hqe, max_eq_right (by push_cast; omega)]
      norm_num
    have hfr := fpRound_eq_dyadic hq hgrid
    have hlt := ht2 1022 (by omega)
    have hnat : i * 2 ^ 1074 < 2 ^ 53 * n := by
      calc i * 2 ^ 1074 = i * 2 ^ 1022 * 2 ^ 52 := by
            rw [mul_assoc, ← pow_add]
        _ < n * 2 ^ 52 := Nat.mul_lt_mul_of_lt_of_le hlt (le_refl _) (by positivity)
        _ ≤ 2 ^ 53 * n := by
            have h2 : (2:ℕ) ^ 53 * n = 2 * (2 ^ 52 * n) := by ring
            have h3 : 0 < 2 ^ 52 * n := by positivity
            have h4 : n * 2 ^ 52 = 2 ^ 52 * n := mul_comm _ _
            omega
    have hdivlt : i * 2 ^ 1074 / n < 2 ^ 53 := by
      rw [Nat.div_lt_iff_lt_mul hn]
      omega
    refine ⟨?_, by norm_num, ?_⟩
    · rw [hfr]
      have harg : ((i:ℚ)/n) * 2 ^ (1074 : ℕ) = ((i * 2 ^ 1074 : ℕ) : ℚ) / n := by
        push_cast
        ring
      rw [harg, ← rne_eq_rneInt _ _ hn]
      push_cast
      ring
    · have := (rne_bounds (i * 2 ^ 1074) n).2
      omega

theorem fpRound_zero : fpRound 0 = 0 := by
  unfold fpRound
  norm_num

theorem rne_zero (den : Nat) : rne 0 den = 0 := by
  unfold rne
  simp

theorem qexp_div_pow {num s b : Nat} (h1 : 2 ^ b ≤ num) (h2 : num < 2 ^ (b + 1)) :
    qexp ((num : ℚ) / 2 ^ s) = (b : ℤ) - s := by
  apply qexp_unique
  · have hcast : ((2:ℚ) ^ ((b:ℤ) - s)) = (2:ℚ) ^ (b:ℤ) / (2:ℚ) ^ (s:ℤ) := by
      rw [zpow_sub₀ (by norm_num : (2:ℚ) ≠ 0)]
    rw [hcast, zpow_natCast, zpow_natCast, div_le_div_right (by positivity)]
    exact_mod_cast h1
  · have hcast : ((2:ℚ) ^ ((b:ℤ) - s + 1)) = (2:ℚ) ^ (((b + 1 : ℕ)):ℤ) / (2:ℚ) ^ (s:ℤ) := by
      rw [← zpow_sub₀ (by norm_num : (2:ℚ) ≠ 0)]
      congr 1
      push_cast
      ring
    rw [hcast, zpow_natCast, zpow_natCast, div_lt_div_right (by positivity)]
    exact_mod_cast h2

theorem pyPct_eq (i n : Nat) (hi : 1 ≤ i) (hin : i ≤ n) :
    (pyPct i n : ℤ) = ⌊fpRound (fpRound ((i:ℚ)/n) * 100)⌋ := by
  obtain ⟨hEq, hs52, hm53⟩ := fpDivSig_spec i n hi hin
  set m := (fpDivSig i n).1 with hm
  set s := (fpDivSig i n).2 with hs
  rcases Nat.eq_zero_or_pos m with hm0 | hmpos
  · rw [hEq, hm0]
    have hz : ((0:ℕ):ℚ) / 2 ^ s * 100 = 0 := by norm_num
    rw [hz, fpRound_zero]
    have hp : pyPct i n = 0 := by
      unfold pyPct
      rw [← hm, hm0]
      simp [rne_zero]
    rw [hp]
    norm_num
  · obtain ⟨hb1, hb2⟩ := nlog2_spec (100 * m) (by omega)
    set b := nlog2 (100 * m) with hbb
    have hb59 : b ≤ 59 := by
      by_contra hc
      push_neg at hc
      have h1 : (2:ℕ) ^ 60 ≤ 2 ^ b := Nat.pow_le_pow_right (by norm_num) (by omega)
      have h2 : 100 * m ≤ 100 * 2 ^ 53 := by omega
      have h3 : 100 * 2 ^ 53 < 2 ^ 60 := by norm_num
      omega
    have hbs : b ≤ s + 52 := by omega
    set s2 := pctShift i n with hs2
    have hs2eq : s2 = min (s + 52 - b) 1074 := by
      rw [hs2]
      unfold pctShift
      rw [← hm, ← hs, ← hbb]
    have hmQ : (0:ℚ) < (m:ℚ) := by exact_mod_cast hmpos
    have hqpos : 0 < ((m:ℚ) / 2 ^ s) * 100 := by positivity
    have hmain : ((m:ℚ) / 2 ^ s) * 100 = ((100 * m : ℕ) : ℚ) / (2:ℚ) ^ s := by
      push_cast
      ring
    have hqe : qexp (((m:ℚ) / 2 ^ s) * 100) = (b:ℤ) - s := by
      rw [hmain]
      exact qexp_div_pow hb1 hb2
    have hgrid : max (qexp (((m:ℚ) / 2 ^ s) * 100) - 52) (-1074) = -(s2:ℤ) := by
      rw [hqe, hs2eq]
      have hc1 : ((s + 52 - b : ℕ) : ℤ) = (s:ℤ) + 52 - b := by
        rw [Nat.cast_sub hbs]
        push_cast
        ring
      rw [Nat.cast_min, hc1]
      omega
    rw [hEq, fpRound_eq_dyadic hqpos hgrid]
    have harg : (((m:ℚ) / 2 ^ s) * 100) * 2 ^ s2 = ((100 * m * 2 ^ s2 : ℕ) : ℚ) / ((2 ^ s : ℕ) : ℚ) := by
      push_cast
      ring
    rw [harg, ← rne_eq_rneInt _ _ (by positivity)]
    have hden : ((2:ℚ)) ^ s2 = ((2 ^ s2 : ℕ) : ℚ) := by
      push_cast
      ring
    rw [hden, Int.cast_natCast]
    have hfl : ⌊(((rne (100 * m * 2 ^ s2) (2 ^ s) : ℕ) : ℚ)) / (((2 ^ s2 : ℕ)) : ℚ)⌋ =
        ((rne (100 * m * 2 ^ s2) (2 ^ s) / 2 ^ s2 : ℕ) : ℤ) := by
      exact_mod_cast Rat.floor_natCast_div_natCast _ _
    rw [hfl]
    norm_cast

theorem pyPct_mono {i1 i2 n : Nat} (h1 : 1 ≤ i1) (h12 : i1 ≤ i2) (h2n : i2 ≤ n) :
    pyPct i1 n ≤ pyPct i2 n := by
  have hb1 := pyPct_eq i1 n h1 (le_trans h12 h2n)
  have hb2 := pyPct_eq i2 n (le_trans h1 h12) h2n
  have hnQ : (0:ℚ) < n := by exact_mod_cast lt_of_lt_of_le h1 (le_trans h12 h2n)
  have hdiv : (i1:ℚ)/n ≤ (i2:ℚ)/n := by
    rw [div_le_div_right hnQ]
    exact_mod_cast h12
  have hd0 : (0:ℚ) ≤ (i1:ℚ)/n := by positivity
  have hf1 : fpRound ((i1:ℚ)/n) ≤ fpRound ((i2:ℚ)/n) := fpRound_mono hd0 hdiv
  have hmul : fpRound ((i1:ℚ)/n) * 100 ≤ fpRound ((i2:ℚ)/n) * 100 :=
    mul_le_mul_of_nonneg_right hf1 (by norm_num)
  have hf2 : fpRound (fpRound ((i1:ℚ)/n) * 100) ≤ fpRound (fpRound ((i2:ℚ)/n) * 100) :=
    fpRound_mono (mul_nonneg (fpRound_nonneg _) (by norm_num)) hmul
  have hle : (pyPct i1 n : ℤ) ≤ (pyPct i2 n : ℤ) := by
    rw [hb1, hb2]
    exact Int.floor_mono hf2
  exact_mod_cast hle

theorem pyPct_self (n : Nat) (hn : 1 ≤ n) : pyPct n n = 100 := by
  have hb := pyPct_eq n n hn (le_refl n)
  have hnQ : (0:ℚ) < n := by exact_mod_cast hn
  rw [div_self (ne_of_gt hnQ)] at hb
  have h1 : fpRound 1 = 1 := by
    have hqe : qexp (1:ℚ) = 0 := qexp_unique (by norm_num) (by norm_num)
    have hgrid : max (qexp (1:ℚ) - 52) (-1074) = -((52:ℕ):ℤ) := by
      rw [hqe]
      push_cast
      omega
    rw [fpRound_eq_dyadic (by norm_num : (0:ℚ) < 1) hgrid]
    rw [show ((1:ℚ) * 2 ^ (52:ℕ)) = (((2 ^ 52 : ℤ)):ℚ) by push_cast; ring]
    rw [rneInt_intCast]
    push_cast
    norm_num
  have h100 : fpRound ((1:ℚ) * 100) = 100 := by
    rw [one_mul]
    have hqe : qexp (100:ℚ) = 6 := by
      apply qexp_unique
      · norm_num
      · norm_num
    have hgrid : max (qexp (100:ℚ) - 52) (-1074) = -((46:ℕ):ℤ) := by
      rw [hqe]
      push_cast
      omega
    rw [fpRound_eq_dyadic (by norm_num : (0:ℚ) < 100) hgrid]
    rw [show ((100:ℚ) * 2 ^ (46:ℕ)) = (((100 * 2 ^ 46 : ℤ)):ℚ) by push_cast; ring]
    rw [rneInt_intCast]
    push_cast
    norm_num
  rw [h1, h100] at hb
  rw [show ⌊(100:ℚ)⌋ = 100 by norm_num] at hb
  exact_mod_cast hb

theorem pyPct_le_99 {i n : Nat} (hi : 1 ≤ i) (hin : i < n) (hn53 : n ≤ 2 ^ 53) :
    pyPct i n ≤ 99 := by
  have hb := pyPct_eq i n hi (le_of_lt hin)
  have hnQ : (0:ℚ) < n := by exact_mod_cast lt_of_lt_of_le hi (le_of_lt hin)
  set u : ℚ := (2 ^ 53 - 1) / 2 ^ 53 with hu
  have hupos : (0:ℚ) < u := by
    rw [hu]
    norm_num
  have hdivu : (i:ℚ)/n ≤ u := by
    rw [hu, div_le_div_iff hnQ (by norm_num)]
    have hiq : (i:ℚ) + 1 ≤ n := by exact_mod_cast hin
    have hnq : (n:ℚ) ≤ 2 ^ 53 := by exact_mod_cast hn53
    nlinarith [hiq, hnq]
  have hfu : fpRound u = u := by
    have hqe : qexp u = -1 := by
      apply qexp_unique
      · rw [hu]
        norm_num
      · rw [hu]
        norm_num
    have hgrid : max (qexp u - 52) (-1074) = -((53:ℕ):ℤ) := by
      rw [hqe]
      push_cast
      omega
    rw [fpRound_eq_dyadic hupos hgrid]
    have harg : u * 2 ^ (53:ℕ) = (((2 ^ 53 - 1 : ℤ)):ℚ) := by
      rw [hu, div_mul_cancel₀]
      · push_cast
        ring
      · norm_num
    rw [harg, rneInt_intCast, hu]
    push_cast
    ring
  have hf1 : fpRound ((i:ℚ)/n) ≤ u := by
    calc fpRound ((i:ℚ)/n) ≤ fpRound u := fpRound_mono (by positivity) hdivu
      _ = u := hfu
  have hmul : fpRound ((i:ℚ)/n) * 100 ≤ u * 100 :=
    mul_le_mul_of_nonneg_right hf1 (by norm_num)
  have hf2 : fpRound (fpRound ((i:ℚ)/n) * 100) ≤ fpRound (u * 100) :=
    fpRound_mono (mul_nonneg (fpRound_nonneg _) (by norm_num)) hmul
  have hval : fpRound (u * 100) = (100 * 2 ^ 46 - 1 : ℚ) / 2 ^ 46 := by
    have hpos : 0 < u * 100 := mul_pos hupos (by norm_num)
    have hqe : qexp (u * 100) = 6 := by
      apply qexp_unique
      · rw [hu]
        norm_num
      · rw [hu]
        norm_num
    have hgrid : max (qexp (u * 100) - 52) (-1074) = -((46:ℕ):ℤ) := by
      rw [hqe]
      push_cast
      omega
    rw [fpRound_eq_dyadic hpos hgrid]
    have hflr : ⌊u * 100 * 2 ^ (46:ℕ)⌋ = 100 * 2 ^ 46 - 1 := by
      rw [Int.floor_eq_iff]
      constructor
      · rw [hu]
        push_cast
        rw [div_mul_eq_mul_div, div_mul_eq_mul_div, le_div_iff (by norm_num)]
        norm_num
      · rw [hu]
        push_cast
        rw [div_mul_eq_mul_div, div_mul_eq_mul_div, div_lt_iff (by norm_num)]
        norm_num
    have hfr : u * 100 * 2 ^ (46:ℕ) - ((100 * 2 ^ 46 - 1 : ℤ) : ℚ) < 1/2 := by
      rw [hu]
      push_cast
      rw [div_mul_eq_mul_div, div_mul_eq_mul_div]
      rw [sub_lt_iff_lt_add, div_lt_iff (by norm_num)]
      norm_num
    have hrne : rneInt (u * 100 * 2 ^ (46:ℕ)) = 100 * 2 ^ 46 - 1 := by
      unfold rneInt
      rw [if_pos]
      · exact hflr
      · rw [hflr]
        exact hfr
    rw [hrne]
    push_cast
    ring
  have hfl99 : ⌊fpRound (u * 100)⌋ ≤ 99 := by
    rw [hval]
    have hlt : (100 * 2 ^ 46 - 1 : ℚ) / 2 ^ 46 < 100 := by
      rw [div_lt_iff (by norm_num)]
      norm_num
    have h99 : ⌊(100 * 2 ^ 46 - 1 : ℚ) / 2 ^ 46⌋ < 100 := Int.floor_lt.mpr (by exact_mod_cast hlt)
    omega
  have hle : (pyPct i n : ℤ) ≤ 99 := by
    rw [hb]
    exact le_trans (Int.floor_mono hf2) hfl99
  exact_mod_cast hle

theorem sorted_map_range (total c : Nat) (hc : c ≤ total) :
    List.Sorted (· ≤ ·) ((List.range c).map (fun k => pyPct (k + 1) total)) := by
  apply List.pairwise_iff_getElem.mpr
  intro i j hi hj hij
  simp only [List.length_map, List.length_range] at hi hj
  simp only [List.getElem_map, List.getElem_range]
  exact pyPct_mono (by omega) (by omega) (by omega)

/-- At `i = 29` of `total = 100` the binary64 value of `29 / 100 * 100` falls
just below 29, so line 222 emits 28 where exact rational floor arithmetic
would give 29: the float model and exact `i * 100 / total` genuinely differ. -/
theorem pyPct_ne_exact_floor : pyPct 29 100 = 28 ∧ 29 * 100 / 100 = 29 := by decide

/-! ## C3 and C4: the emitted percentages -/

/-- C3, counterexample: a non-empty run of two identical files — the second
collides with the first — emits the progress sequence `[50]`, whose last
element is not 100. -/
theorem c3_counterexample :
    ¬(List.Sorted (· ≤ ·)
        (progressValues (organizeRun sampleCfg
          [sampleFile "a.mp3", sampleFile "a.mp3"] []).1) ∧
      (progressValues (organizeRun sampleCfg
        [sampleFile "a.mp3", sampleFile "a.mp3"] []).1).getLast? = some 100) :=
  fun h => absurd h.2 (by decide)

/-- C3, amended: the emitted progress percentages — each the binary64
evaluation of `int(i / len(pathlist) * 100)` — are always monotonically
non-decreasing; on a non-empty run in which no record carries the collision
message — no file ended as `SkippedExisting` and no error record carries that
exact text — the last emitted percentage is exactly 100; and on a run of at
most 2^53 files in which some file collided, the counter excludes the
collisions while the denominator still counts them, so every emitted
percentage — in particular the last one — stays below 100 (with no emission
at all when every file collided). -/
theorem c3_monotone_and_final (cfg : Config) (files : List MusicFile) (fs0 : FS) :
    List.Sorted (· ≤ ·) (progressValues (organizeRun cfg files fs0).1) ∧
    (files ≠ [] →
      (runLoop cfg files.length (initState fs0) files).skipFiles = [] →
      (∀ r ∈ (runLoop cfg files.length (initState fs0) files).errorFiles,
        r.error ≠ skipMsg) →
      (progressValues (organizeRun cfg files fs0).1).getLast? = some 100) ∧
    (files.length ≤ 2 ^ 53 →
      (runLoop cfg files.length (initState fs0) files).skipFiles ≠ [] →
      ∀ p, (progressValues (organizeRun cfg files fs0).1).getLast? = some p →
        p < 100) := by
  by_cases hlen : files.length = 0
  · have hnil : files = [] := List.length_eq_zero.mp hlen
    subst hnil
    refine ⟨?_, ?_, ?_⟩
    · rw [show progressValues (organizeRun cfg [] fs0).1 = [] from rfl]
      exact List.sorted_nil
    · intro h
      exact absurd rfl h
    · intro _ hskip
      exact absurd rfl hskip
  · have hpv := progressValues_run cfg files fs0 hlen
    have hshape := runLoop_progress_shape cfg files.length files (initState fs0) rfl
    have hsplit := runLoop_count_split cfg files.length files (initState fs0)
    have hbad0 : badRec (initState fs0) = 0 := rfl
    have hc0 : (initState fs0).counted = 0 := rfl
    have hc_le : (runLoop cfg files.length (initState fs0) files).counted ≤
        files.length := by
      omega
    refine ⟨?_, ?_, ?_⟩
    · rw [hpv, hshape]
      exact sorted_map_range files.length _ hc_le
    · intro hne hskip herr
      have hbadF : badRec (runLoop cfg files.length (initState fs0) files) = 0 := by
        unfold badRec
        rw [hskip]
        have hfil : (runLoop cfg files.length (initState fs0) files).errorFiles.filter
            (fun r => decide (r.error = skipMsg)) = [] := by
          rw [List.filter_eq_nil_iff]
          intro r hr
          simpa using herr r hr
        rw [hfil]
        rfl
      have hcount : (runLoop cfg files.length (initState fs0) files).counted =
          files.length := by
        omega
      rw [hpv, hshape, hcount]
      obtain ⟨n, hn⟩ : ∃ n, files.length = n + 1 := Nat.exists_eq_succ_of_ne_zero hlen
      rw [hn, List.range_succ, List.map_append]
      rw [show List.map (fun k => pyPct (k + 1) (n + 1)) [n]
        = [pyPct (n + 1) (n + 1)] from rfl]
      rw [List.getLast?_concat]
      rw [pyPct_self (n + 1) (Nat.succ_le_succ (Nat.zero_le n))]
    · intro h53 hskip p hp
      have hbadpos : 1 ≤ badRec (runLoop cfg files.length (initState fs0) files) := by
        unfold badRec
        have hlp : 0 < (runLoop cfg files.length (initState fs0) files).skipFiles.length :=
          List.length_pos.mpr hskip
        omega
      have hcnt : (runLoop cfg files.length (initState fs0) files).counted <
          files.length := by
        omega
      rw [hpv, hshape] at hp
      cases hcnt2 : (runLoop cfg files.length (initState fs0) files).counted with
      | zero =>
        rw [hcnt2] at hp
        simp at hp
      | succ m =>
        rw [hcnt2, List.range_succ, List.map_append] at hp
        rw [show List.map (fun k => pyPct (k + 1) files.length) [m]
          = [pyPct (m + 1) files.length] from rfl] at hp
        rw [List.getLast?_concat] at hp
        have hpe : pyPct (m + 1) files.length = p := Option.some.inj hp
        have h99 : pyPct (m + 1) files.length ≤ 99 :=
          pyPct_le_99 (by omega) (by omega) h53
        omega

/-- Witness for the amended C3: a concrete one-file run whose progress is
sorted and ends at 100, and a concrete two-file collision run whose only
emitted percentage stays below 100. -/
theorem c3_witness :
    (List.Sorted (· ≤ ·)
      (progressValues (organizeRun sampleCfg [sampleFile "1.mp3"] []).1) ∧
    (progressValues (organizeRun sampleCfg [sampleFile "1.mp3"] []).1).getLast?
      = some 100) ∧
    (∀ p, (progressValues (organizeRun sampleCfg
        [sampleFile "a.mp3", sampleFile "a.mp3"] []).1).getLast? = some p →
      p < 100) :=
  ⟨⟨(c3_monotone_and_final sampleCfg [sampleFile "1.mp3"] []).1,
    (c3_monotone_and_final sampleCfg [sampleFile "1.mp3"] []).2.1
      (by decide) (by decide) (by decide)⟩,
    (c3_monotone_and_final sampleCfg
        [sampleFile "a.mp3", sampleFile "a.mp3"] []).2.2
      (by decide) (by decide)⟩

/-- C4, counterexample: on a run of three complete files the second emitted
percentage is 66 — Python `int(2 / 3 * 100)` — while `round(2 / 3 * 100)` as
the claim states is 67. -/
theorem c4_counterexample :
    (progressValues (organizeRun sampleCfg
        [sampleFile "1.mp3", sampleFile "2.mp3", sampleFile "3.mp3"] []).1)[1]? = some 66 ∧
    specRound ((1 + 1) * 100)
      ([sampleFile "1.mp3", sampleFile "2.mp3", sampleFile "3.mp3"] : List MusicFile).length
      = 67 ∧
    (66 : Nat) ≠ 67 := by decide

/-- C4, amended: after each counted file the emitted progress percentage
equals the binary64 evaluation of `int(i / len(pathlist) * 100)` — IEEE-754
double division of the running count by the discovered total, double
multiplication by 100, then truncation toward zero (`pyPct` of the count and
the total in this development) — not the exact rational `round` the original
claim states, nor the exact rational floor. -/
theorem c4_float_progress (cfg : Config) (files : List MusicFile) (fs0 : FS) (j pv : Nat)
    (h : (progressValues (organizeRun cfg files fs0).1)[j]? = some pv) :
    pv = pyPct (j + 1) files.length := by
  by_cases hlen : files.length = 0
  · have hnil : files = [] := List.length_eq_zero.mp hlen
    subst hnil
    rw [show progressValues (organizeRun cfg [] fs0).1 = [] from rfl] at h
    simp at h
  · rw [progressValues_run cfg files fs0 hlen] at h
    rw [runLoop_progress_shape cfg files.length files (initState fs0) rfl] at h
    rw [List.getElem?_map] at h
    by_cases hj : j < (runLoop cfg files.length (initState fs0) files).counted
    · rw [List.getElem?_range hj] at h
      simpa using h.symm
    · rw [List.getElem?_eq_none (by simpa using Nat.le_of_not_lt hj)] at h
      simp at h

/-- Witness for the amended C4: the second percentage of the three-file run is
the binary64 value of `int(2 / 3 * 100)`, namely 66. -/
theorem c4_witness :
    (66 : Nat) = pyPct (1 + 1)
      ([sampleFile "1.mp3", sampleFile "2.mp3", sampleFile "3.mp3"] : List MusicFile).length :=
  c4_float_progress sampleCfg [sampleFile "1.mp3", sampleFile "2.mp3", sampleFile "3.mp3"]
    [] 1 66 (by decide)

end JMO
